import Mathlib

/-!
Verification development for the tiptap-block-designer JSON/XML converter
(src/src/utils/converters.ts and the sync functions of src/src/App.tsx).

The document data model and the conversion functions are translated from the
source.  The generic order-preserving XML parse step (the external
fast-xml-parser library) and the platform JSON.parse are not part of the
repository's own sources; they are modelled from the specification, as noted
on each such definition.  Machine strings are Lean String values (lists of
characters); JavaScript numbers appearing in attribute values are modelled as
integers, which covers every value the claims exercise.
-/

namespace Tiptap

/-- A JSON value, the type of TipTap attribute payloads
(the TypeScript side uses untyped JSON values). -/
inductive JsonValue where
  | null : JsonValue
  | bool (b : Bool) : JsonValue
  | num (n : Int) : JsonValue
  | str (s : String) : JsonValue
  | arr (elems : List JsonValue) : JsonValue
  | obj (fields : List (String × JsonValue)) : JsonValue
deriving Repr

mutual

def JsonValue.decEq : (a b : JsonValue) → Decidable (a = b)
  | .null, .null => isTrue rfl
  | .bool a, .bool b =>
      if h : a = b then isTrue (by rw [h]) else isFalse (by intro hh; injection hh; contradiction)
  | .num a, .num b =>
      if h : a = b then isTrue (by rw [h]) else isFalse (by intro hh; injection hh; contradiction)
  | .str a, .str b =>
      if h : a = b then isTrue (by rw [h]) else isFalse (by intro hh; injection hh; contradiction)
  | .arr xs, .arr ys =>
      match JsonValue.decEqList xs ys with
      | isTrue h => isTrue (by rw [h])
      | isFalse h => isFalse (by intro hh; injection hh; contradiction)
  | .obj xs, .obj ys =>
      match JsonValue.decEqFields xs ys with
      | isTrue h => isTrue (by rw [h])
      | isFalse h => isFalse (by intro hh; injection hh; contradiction)
  | .null, .bool _ => isFalse (by intro h; cases h)
  | .null, .num _ => isFalse (by intro h; cases h)
  | .null, .str _ => isFalse (by intro h; cases h)
  | .null, .arr _ => isFalse (by intro h; cases h)
  | .null, .obj _ => isFalse (by intro h; cases h)
  | .bool _, .null => isFalse (by intro h; cases h)
  | .bool _, .num _ => isFalse (by intro h; cases h)
  | .bool _, .str _ => isFalse (by intro h; cases h)
  | .bool _, .arr _ => isFalse (by intro h; cases h)
  | .bool _, .obj _ => isFalse (by intro h; cases h)
  | .num _, .null => isFalse (by intro h; cases h)
  | .num _, .bool _ => isFalse (by intro h; cases h)
  | .num _, .str _ => isFalse (by intro h; cases h)
  | .num _, .arr _ => isFalse (by intro h; cases h)
  | .num _, .obj _ => isFalse (by intro h; cases h)
  | .str _, .null => isFalse (by intro h; cases h)
  | .str _, .bool _ => isFalse (by intro h; cases h)
  | .str _, .num _ => isFalse (by intro h; cases h)
  | .str _, .arr _ => isFalse (by intro h; cases h)
  | .str _, .obj _ => isFalse (by intro h; cases h)
  | .arr _, .null => isFalse (by intro h; cases h)
  | .arr _, .bool _ => isFalse (by intro h; cases h)
  | .arr _, .num _ => isFalse (by intro h; cases h)
  | .arr _, .str _ => isFalse (by intro h; cases h)
  | .arr _, .obj _ => isFalse (by intro h; cases h)
  | .obj _, .null => isFalse (by intro h; cases h)
  | .obj _, .bool _ => isFalse (by intro h; cases h)
  | .obj _, .num _ => isFalse (by intro h; cases h)
  | .obj _, .str _ => isFalse (by intro h; cases h)
  | .obj _, .arr _ => isFalse (by intro h; cases h)

def JsonValue.decEqList : (xs ys : List JsonValue) → Decidable (xs = ys)
  | [], [] => isTrue rfl
  | [], _ :: _ => isFalse (by intro h; cases h)
  | _ :: _, [] => isFalse (by intro h; cases h)
  | x :: xs, y :: ys =>
      match JsonValue.decEq x y with
      | isTrue h1 =>
          match JsonValue.decEqList xs ys with
          | isTrue h2 => isTrue (by rw [h1, h2])
          | isFalse h2 => isFalse (by intro hh; injection hh; contradiction)
      | isFalse h1 => isFalse (by intro hh; injection hh; contradiction)

def JsonValue.decEqFields : (xs ys : List (String × JsonValue)) → Decidable (xs = ys)
  | [], [] => isTrue rfl
  | [], _ :: _ => isFalse (by intro h; cases h)
  | _ :: _, [] => isFalse (by intro h; cases h)
  | (k1, v1) :: xs, (k2, v2) :: ys =>
      if hk : k1 = k2 then
        match JsonValue.decEq v1 v2 with
        | isTrue h1 =>
            match JsonValue.decEqFields xs ys with
            | isTrue h2 => isTrue (by rw [hk, h1, h2])
            | isFalse h2 => isFalse (by intro hh; injection hh; contradiction)
        | isFalse h1 =>
            isFalse (by
              intro hh; injection hh with hh1 hh2
              exact h1 (congrArg Prod.snd hh1))
      else
        isFalse (by
          intro hh; injection hh with hh1 hh2
          exact hk (congrArg Prod.fst hh1))

end

instance : DecidableEq JsonValue := JsonValue.decEq

/-- An inline formatting mark attached to a text node
(type TipTapMark of the repository). -/
structure TipTapMark where
  type : String
  attrs : Option (List (String × JsonValue))
deriving DecidableEq, Repr

/-- Abbreviation for building a mark. -/
def mkMark (t : String) (attrs : Option (List (String × JsonValue)) := none) : TipTapMark :=
  ⟨t, attrs⟩

/-- A node of the TipTap document tree (type TipTapNode of the repository):
a record with a required type and optional attrs, content, text and marks
fields.  Absent optional fields are Option.none. -/
inductive TipTapNode where
  | mk (type : String) (attrs : Option (List (String × JsonValue)))
       (content : Option (List TipTapNode)) (text : Option String)
       (marks : Option (List TipTapMark)) : TipTapNode
deriving Repr

mutual

def TipTapNode.decEq : (a b : TipTapNode) → Decidable (a = b)
  | .mk t1 a1 c1 x1 m1, .mk t2 a2 c2 x2 m2 =>
      if ht : t1 = t2 then
        if ha : a1 = a2 then
          match TipTapNode.decEqOptList c1 c2 with
          | isTrue hc =>
              if hx : x1 = x2 then
                if hm : m1 = m2 then isTrue (by rw [ht, ha, hc, hx, hm])
                else isFalse (by intro hh; injection hh; contradiction)
              else isFalse (by intro hh; injection hh; contradiction)
          | isFalse hc => isFalse (by intro hh; injection hh; contradiction)
        else isFalse (by intro hh; injection hh; contradiction)
      else isFalse (by intro hh; injection hh; contradiction)

def TipTapNode.decEqList : (xs ys : List TipTapNode) → Decidable (xs = ys)
  | [], [] => isTrue rfl
  | [], _ :: _ => isFalse (by intro h; cases h)
  | _ :: _, [] => isFalse (by intro h; cases h)
  | x :: xs, y :: ys =>
      match TipTapNode.decEq x y with
      | isTrue h1 =>
          match TipTapNode.decEqList xs ys with
          | isTrue h2 => isTrue (by rw [h1, h2])
          | isFalse h2 => isFalse (by intro hh; injection hh; contradiction)
      | isFalse h1 => isFalse (by intro hh; injection hh; contradiction)

def TipTapNode.decEqOptList : (xs ys : Option (List TipTapNode)) → Decidable (xs = ys)
  | none, none => isTrue rfl
  | none, some _ => isFalse (by intro h; cases h)
  | some _, none => isFalse (by intro h; cases h)
  | some xs, some ys =>
      match TipTapNode.decEqList xs ys with
      | isTrue h => isTrue (by rw [h])
      | isFalse h => isFalse (by intro hh; injection hh; contradiction)

end

instance : DecidableEq TipTapNode := TipTapNode.decEq

def TipTapNode.type : TipTapNode → String
  | .mk t _ _ _ _ => t

def TipTapNode.attrs : TipTapNode → Option (List (String × JsonValue))
  | .mk _ a _ _ _ => a

def TipTapNode.content : TipTapNode → Option (List TipTapNode)
  | .mk _ _ c _ _ => c

def TipTapNode.text : TipTapNode → Option String
  | .mk _ _ _ tx _ => tx

def TipTapNode.marks : TipTapNode → Option (List TipTapMark)
  | .mk _ _ _ _ m => m

/-- The document root (type TipTapDoc of the repository): the type field is
always the literal doc, so only the optional content list is carried. -/
structure TipTapDoc where
  content : Option (List TipTapNode)
deriving DecidableEq, Repr

/-- Whitespace characters recognised by the JavaScript regular expression
class backslash-s on the inputs in scope (space, tab, newline, carriage
return, form feed, vertical tab). -/
def isWsChar (c : Char) : Bool :=
  c = ' ' || c = '\t' || c = '\n' || c = '\r' || c = '\x0c' || c = '\x0b'

/-- converters.ts isWhitespaceOnly: the string matches whitespace-only. -/
def isWhitespaceOnly (s : String) : Bool :=
  s.data.all isWsChar

/-- One character of converters.ts escapeXml.  The source applies five
sequential global single-character replacements; since no replacement output
contains a character replaced by a later pass, the chain equals this single
character-by-character map. -/
def escChar (c : Char) : List Char :=
  if c = '&' then "&amp;".data
  else if c = '<' then "&lt;".data
  else if c = '>' then "&gt;".data
  else if c = '"' then "&quot;".data
  else if c = '\'' then "&apos;".data
  else [c]

/-- converters.ts escapeXml. -/
def escapeXml (s : String) : String :=
  String.mk (s.data.foldr (fun c acc => escChar c ++ acc) [])

/-- One character of converters.ts escapeXmlAttr (double quotes left as-is). -/
def escAttrChar (c : Char) : List Char :=
  if c = '&' then "&amp;".data
  else if c = '<' then "&lt;".data
  else if c = '>' then "&gt;".data
  else if c = '\'' then "&apos;".data
  else [c]

/-- converters.ts escapeXmlAttr. -/
def escapeXmlAttr (s : String) : String :=
  String.mk (s.data.foldr (fun c acc => escAttrChar c ++ acc) [])

/-- One character of the JSON string escaping performed by JSON.stringify. -/
def jsonEscChar (c : Char) : List Char :=
  if c = '"' then ['\\', '"']
  else if c = '\\' then ['\\', '\\']
  else if c = '\n' then ['\\', 'n']
  else if c = '\r' then ['\\', 'r']
  else if c = '\t' then ['\\', 't']
  else [c]

/-- JSON string literal: quote and escape. -/
def jsonQuote (s : String) : String :=
  "\"" ++ String.mk (s.data.foldr (fun c acc => jsonEscChar c ++ acc) []) ++ "\""

mutual

/-- Modelled from the spec: the platform JSON.stringify applied to an
attribute value (spec section 4.1, object/array values are JSON-encoded into
the attribute value string). -/
def jsonStringify : JsonValue → String
  | .null => "null"
  | .bool b => if b then "true" else "false"
  | .num n => toString n
  | .str s => jsonQuote s
  | .arr elems => "[" ++ jsonStringifyList elems ++ "]"
  | .obj fields => "\x7b" ++ jsonStringifyFields fields ++ "\x7d"

def jsonStringifyList : List JsonValue → String
  | [] => ""
  | [v] => jsonStringify v
  | v :: rest => jsonStringify v ++ "," ++ jsonStringifyList rest

def jsonStringifyFields : List (String × JsonValue) → String
  | [] => ""
  | [kv] => jsonQuote kv.1 ++ ":" ++ jsonStringify kv.2
  | kv :: rest => jsonQuote kv.1 ++ ":" ++ jsonStringify kv.2 ++ "," ++ jsonStringifyFields rest

end

/-- converters.ts serializeAttrValue: null/undefined become the empty string,
objects and arrays are JSON-stringified, primitives are stringified directly
(String(value)). -/
def serializeAttrValue : JsonValue → String
  | .null => ""
  | .bool b => if b then "true" else "false"
  | .num n => toString n
  | .str s => s
  | .arr elems => jsonStringify (.arr elems)
  | .obj fields => jsonStringify (.obj fields)

/-- converters.ts attrsToXmlString: empty or absent maps yield the empty
string, otherwise each pair renders as a space, the key, equals and the
single-quoted escaped value, concatenated. -/
def attrsToXmlString : Option (List (String × JsonValue)) → String
  | none => ""
  | some [] => ""
  | some kvs =>
      (kvs.map (fun kv => " " ++ kv.1 ++ "='" ++ escapeXmlAttr (serializeAttrValue kv.2) ++ "'")).foldr
        (fun a b => a ++ b) ""

/-- converters.ts wrapTextWithMarks: the descending loop over the mark list
wrapping from the last entry (innermost) to the first (outermost) is a right
fold. -/
def wrapTextWithMarks (text : String) (marks : List TipTapMark) : String :=
  marks.foldr
    (fun mark result =>
      "<" ++ mark.type ++ attrsToXmlString mark.attrs ++ ">" ++ result ++ "</" ++ mark.type ++ ">")
    (escapeXml text)

mutual

/-- converters.ts nodeToXml. -/
def nodeToXml : TipTapNode → String → String
  | node, indent =>
    match node with
    | .mk ty attrs0 content0 text0 marks0 =>
      if ty = "text" ∧ text0.isSome then
        wrapTextWithMarks (text0.getD "") (marks0.getD [])
      else
        let attrs := attrsToXmlString attrs0
        match content0 with
        | none => indent ++ "<" ++ ty ++ attrs ++ " />"
        | some [] => indent ++ "<" ++ ty ++ attrs ++ " />"
        | some (c :: cs) =>
          if (c :: cs).all (fun child => child.type = "text") then
            indent ++ "<" ++ ty ++ attrs ++ ">" ++ nodesInline (c :: cs) ++ "</" ++ ty ++ ">"
          else
            let childIndent := indent ++ "  "
            indent ++ "<" ++ ty ++ attrs ++ ">\n" ++ nodesJoined (c :: cs) childIndent ++
              "\n" ++ indent ++ "</" ++ ty ++ ">"

/-- Inline content: children serialized with empty indent, concatenated with
no separator (the join of the map in nodeToXml's inline branch). -/
def nodesInline : List TipTapNode → String
  | [] => ""
  | n :: rest => nodeToXml n "" ++ nodesInline rest

/-- Block content: children serialized with the child indent, joined by
newlines (the join of the map in nodeToXml's block branch and in jsonToXml). -/
def nodesJoined : List TipTapNode → String → String
  | [], _ => ""
  | [n], ci => nodeToXml n ci
  | n :: rest, ci => nodeToXml n ci ++ "\n" ++ nodesJoined rest ci

end

/-- converters.ts jsonToXml: empty or absent content yields the empty string,
otherwise the content nodes are serialized directly (no doc wrapper) and
joined by newlines. -/
def jsonToXml (doc : TipTapDoc) : String :=
  match doc.content with
  | none => ""
  | some [] => ""
  | some (c :: cs) => nodesJoined (c :: cs) ""

/-!
## The generic order-preserving XML parse representation

converters.ts consumes the output of the external fast-xml-parser library
configured with preserveOrder, ignoreAttributes false, empty attribute name
prefix, text node name hash-text and trimValues false.  Each entry of the
parse representation is a record that may carry a tag key (holding the
ordered children), an attribute map and a text run.  The repository's own
code (getTagName, convertElement, processElements, extractTextWithMarks)
is translated from the source; the generic parse step itself is modelled
from the spec.
-/

/-- An entry of the generic order-preserving parse representation (the
ParsedElement type of converters.ts): an optional tag name with its ordered
children, an attribute map (the colon-at key) and an optional text run (the
hash-text key). -/
inductive ParsedElement where
  | mk (tagChildren : Option (String × List ParsedElement))
       (attrs : List (String × String)) (text : Option String) : ParsedElement
deriving Repr

def ParsedElement.tagChildrenF : ParsedElement → Option (String × List ParsedElement)
  | .mk tc _ _ => tc

def ParsedElement.attrsF : ParsedElement → List (String × String)
  | .mk _ a _ => a

def ParsedElement.textF : ParsedElement → Option String
  | .mk _ _ t => t

/-- A pure text run entry. -/
def mkText (s : String) : ParsedElement := .mk none [] (some s)

/-- A tagged element entry. -/
def mkElem (tag : String) (attrs : List (String × String))
    (children : List ParsedElement) : ParsedElement :=
  .mk (some (tag, children)) attrs none

/-- converters.ts getTagName: the key of the element that is neither the
attribute key nor the text key. -/
def getTagName (e : ParsedElement) : Option String :=
  e.tagChildrenF.map (fun tc => tc.1)

/-- Characters accepted in tag and attribute names by the modelled parser. -/
def nameChar (c : Char) : Bool :=
  c.isAlphanum || c = '_' || c = '-' || c = '.'

/-- Modelled from the spec: the text-run lexer of the generic XML parser.
Consumes characters up to the next opening angle bracket or the end of
input, decoding the five standard XML entities (an ampersand not starting a
recognised entity stands for itself); returns the decoded run and the
unconsumed remainder (which is empty or starts with an opening angle
bracket). -/
def lexText : List Char → List Char × List Char
  | [] => ([], [])
  | '<' :: rest => ([], '<' :: rest)
  | '&' :: 'a' :: 'm' :: 'p' :: ';' :: rest =>
      let r := lexText rest
      ('&' :: r.1, r.2)
  | '&' :: 'l' :: 't' :: ';' :: rest =>
      let r := lexText rest
      ('<' :: r.1, r.2)
  | '&' :: 'g' :: 't' :: ';' :: rest =>
      let r := lexText rest
      ('>' :: r.1, r.2)
  | '&' :: 'q' :: 'u' :: 'o' :: 't' :: ';' :: rest =>
      let r := lexText rest
      ('"' :: r.1, r.2)
  | '&' :: 'a' :: 'p' :: 'o' :: 's' :: ';' :: rest =>
      let r := lexText rest
      ('\'' :: r.1, r.2)
  | c :: rest =>
      let r := lexText rest
      (c :: r.1, r.2)

/-- Modelled from the spec: attribute value lexer, consuming decoded
characters up to the closing quote delimiter. -/
def lexAttrVal (q : Char) : List Char → Option (List Char × List Char)
  | [] => none
  | '&' :: 'a' :: 'm' :: 'p' :: ';' :: rest =>
      (lexAttrVal q rest).map (fun vr => ('&' :: vr.1, vr.2))
  | '&' :: 'l' :: 't' :: ';' :: rest =>
      (lexAttrVal q rest).map (fun vr => ('<' :: vr.1, vr.2))
  | '&' :: 'g' :: 't' :: ';' :: rest =>
      (lexAttrVal q rest).map (fun vr => ('>' :: vr.1, vr.2))
  | '&' :: 'q' :: 'u' :: 'o' :: 't' :: ';' :: rest =>
      (lexAttrVal q rest).map (fun vr => ('"' :: vr.1, vr.2))
  | '&' :: 'a' :: 'p' :: 'o' :: 's' :: ';' :: rest =>
      (lexAttrVal q rest).map (fun vr => ('\'' :: vr.1, vr.2))
  | c :: rest =>
      if c = q then some ([], rest)
      else (lexAttrVal q rest).map (fun vr => (c :: vr.1, vr.2))

/-- Modelled from the spec: the attribute list of a tag, read until the
closing part of the tag; attribute values are kept as raw (entity-decoded)
strings, single- or double-quote delimited. -/
def parseAttrs : Nat → List Char → Option (List (String × String) × List Char)
  | 0, _ => none
  | f + 1, cs =>
      let cs1 := cs.dropWhile isWsChar
      match cs1 with
      | [] => none
      | c :: _ =>
          if c = '/' ∨ c = '>' then some ([], cs1)
          else
            let nm := cs1.takeWhile nameChar
            let r1 := cs1.dropWhile nameChar
            if nm = [] then none
            else
              match r1.dropWhile isWsChar with
              | '=' :: r2 =>
                  match r2.dropWhile isWsChar with
                  | q :: r3 =>
                      if q = '\'' ∨ q = '"' then
                        match lexAttrVal q r3 with
                        | some (v, r4) =>
                            match parseAttrs f r4 with
                            | some (attrs, r5) =>
                                some ((String.mk nm, String.mk v) :: attrs, r5)
                            | none => none
                        | none => none
                      else none
                  | [] => none
              | _ => none

mutual

/-- Modelled from the spec: one element, entered just after its opening
angle bracket: tag name, attributes, then either a self-closing slash or the
ordered children followed by the matching closing tag. -/
def parseElement : Nat → List Char → Option (ParsedElement × List Char)
  | 0, _ => none
  | f + 1, cs =>
      let nm := cs.takeWhile nameChar
      let r1 := cs.dropWhile nameChar
      if nm = [] then none
      else
        match parseAttrs (f + 1) r1 with
        | none => none
        | some (attrs, r2) =>
            match r2 with
            | '/' :: '>' :: r3 => some (mkElem (String.mk nm) attrs [], r3)
            | '>' :: r3 =>
                match parseItems f r3 with
                | none => none
                | some (children, r4) =>
                    match r4 with
                    | '<' :: '/' :: r5 =>
                        let nm2 := r5.takeWhile nameChar
                        let r6 := r5.dropWhile nameChar
                        if nm2 = nm then
                          match r6.dropWhile isWsChar with
                          | '>' :: r7 => some (mkElem (String.mk nm) attrs children, r7)
                          | _ => none
                        else none
                    | _ => none
            | _ => none

/-- Modelled from the spec: the ordered item sequence of a document or of an
element body: text runs interleaved with elements, ending at the end of
input or in front of a closing tag. -/
def parseItems : Nat → List Char → Option (List ParsedElement × List Char)
  | 0, _ => none
  | f + 1, cs =>
      let tr := lexText cs
      let items0 : List ParsedElement :=
        if tr.1 = [] then [] else [mkText (String.mk tr.1)]
      match tr.2 with
      | [] => some (items0, [])
      | '<' :: rest =>
          if rest.head? = some '/' then some (items0, '<' :: rest)
          else
            match parseElement f rest with
            | none => none
            | some (e, r2) =>
                match parseItems f r2 with
                | none => none
                | some (es, r3) => some (items0 ++ e :: es, r3)
      | _ => none

end

/-- Modelled from the spec: the generic order-preserving XML parse of the
whole input (the external parser's parse method with the options fixed in
converters.ts); fails on malformed input. -/
def xmlParse (s : String) : Option (List ParsedElement) :=
  match parseItems (2 * s.data.length + 2) s.data with
  | some (es, []) => some es
  | _ => none

/-!
## JSON parsing (the platform JSON.parse, modelled from the spec)
-/

/-- JSON insignificant whitespace. -/
def jsonSkipWs (cs : List Char) : List Char :=
  cs.dropWhile (fun c => c = ' ' || c = '\t' || c = '\n' || c = '\r')

/-- Modelled from the spec: JSON string body lexer, entered after the
opening double quote. -/
def lexJsonStr : List Char → Option (List Char × List Char)
  | [] => none
  | '\\' :: rest =>
      match rest with
      | [] => none
      | e :: rest2 =>
          match (if e = '"' then some '"'
                 else if e = '\\' then some '\\'
                 else if e = '/' then some '/'
                 else if e = 'n' then some '\n'
                 else if e = 'r' then some '\r'
                 else if e = 't' then some '\t'
                 else none) with
          | some d => (lexJsonStr rest2).map (fun vr => (d :: vr.1, vr.2))
          | none => none
  | '"' :: rest => some ([], rest)
  | c :: rest => (lexJsonStr rest).map (fun vr => (c :: vr.1, vr.2))

/-- Decimal digits to a natural number. -/
def digitsToNat (ds : List Char) : Nat :=
  ds.foldl (fun a c => a * 10 + (c.toNat - 48)) 0

mutual

/-- Modelled from the spec: one JSON value (JSON.parse); numbers are
modelled as integers, so fractional or exponent notation is not accepted by
the model. -/
def jsonVal : Nat → List Char → Option (JsonValue × List Char)
  | 0, _ => none
  | f + 1, cs =>
      match jsonSkipWs cs with
      | [] => none
      | c :: rest =>
          if c = 'n' then
            match rest with
            | 'u' :: 'l' :: 'l' :: r => some (.null, r)
            | _ => none
          else if c = 't' then
            match rest with
            | 'r' :: 'u' :: 'e' :: r => some (.bool true, r)
            | _ => none
          else if c = 'f' then
            match rest with
            | 'a' :: 'l' :: 's' :: 'e' :: r => some (.bool false, r)
            | _ => none
          else if c = '"' then
            (lexJsonStr rest).map (fun vr => (.str (String.mk vr.1), vr.2))
          else if c = '-' then
            let ds := rest.takeWhile Char.isDigit
            if ds = [] then none
            else some (.num (-(digitsToNat ds : Int)), rest.dropWhile Char.isDigit)
          else if c.isDigit then
            let all := c :: rest
            some (.num (digitsToNat (all.takeWhile Char.isDigit)), all.dropWhile Char.isDigit)
          else if c = '[' then
            match jsonSkipWs rest with
            | ']' :: r => some (.arr [], r)
            | _ => (jsonArrItems f rest).map (fun vr => (.arr vr.1, vr.2))
          else if c = '\x7b' then
            match jsonSkipWs rest with
            | '\x7d' :: r => some (.obj [], r)
            | _ => (jsonObjItems f rest).map (fun vr => (.obj vr.1, vr.2))
          else none

/-- Modelled from the spec: comma-separated JSON array items up to the
closing bracket. -/
def jsonArrItems : Nat → List Char → Option (List JsonValue × List Char)
  | 0, _ => none
  | f + 1, cs =>
      match jsonVal f cs with
      | none => none
      | some (v, r) =>
          match jsonSkipWs r with
          | ',' :: r2 => (jsonArrItems f r2).map (fun vr => (v :: vr.1, vr.2))
          | ']' :: r2 => some ([v], r2)
          | _ => none

/-- Modelled from the spec: comma-separated JSON object members up to the
closing brace. -/
def jsonObjItems : Nat → List Char → Option (List (String × JsonValue) × List Char)
  | 0, _ => none
  | f + 1, cs =>
      match jsonSkipWs cs with
      | '"' :: r =>
          match lexJsonStr r with
          | none => none
          | some (k, r2) =>
              match jsonSkipWs r2 with
              | ':' :: r3 =>
                  match jsonVal f r3 with
                  | none => none
                  | some (v, r4) =>
                      match jsonSkipWs r4 with
                      | ',' :: r5 =>
                          (jsonObjItems f r5).map (fun vr => ((String.mk k, v) :: vr.1, vr.2))
                      | '\x7d' :: r5 => some ([(String.mk k, v)], r5)
                      | _ => none
              | _ => none
      | _ => none

end

/-- Modelled from the spec: JSON.parse of a whole string; fails when the
input is not a single JSON value followed only by whitespace. -/
def jsonParse (s : String) : Option JsonValue :=
  match jsonVal (s.data.length + 1) s.data with
  | some (v, r) => if jsonSkipWs r = [] then some v else none
  | none => none

/-!
## XML to JSON conversion (converters.ts, lines 131 to 364)
-/

/-- converters.ts MARK_TYPES: the closed registry of mark type names. -/
def MARK_TYPES : List String :=
  ["bold", "italic", "strike", "underline", "code",
   "link", "textStyle", "highlight", "subscript", "superscript"]

/-- converters.ts isMarkType. -/
def isMarkType (tagName : String) : Bool :=
  MARK_TYPES.contains tagName

def startsWithChar (s : String) (c : Char) : Bool := s.data.head? = some c

def endsWithChar (s : String) (c : Char) : Bool := s.data.getLast? = some c

/-- The shape test of converters.ts deserializeAttrValue: the trimmed value
starts and ends with braces or with square brackets. -/
def jsonShaped (t : String) : Bool :=
  (startsWithChar t '\x7b' && endsWithChar t '\x7d') ||
  (startsWithChar t '[' && endsWithChar t ']')

/-- The trim method of JavaScript strings: whitespace removed from both
ends. -/
def strTrim (s : String) : String :=
  String.mk (((s.data.dropWhile isWsChar).reverse.dropWhile isWsChar).reverse)

/-- converters.ts deserializeAttrValue.  In the modelled parse
representation every attribute value is a string (the source also passes
non-string values through unchanged, a case that does not arise here). -/
def deserializeAttrValue (value : String) : JsonValue :=
  let trimmed := strTrim value
  if jsonShaped trimmed then
    match jsonParse trimmed with
    | some j => j
    | none => .str value
  else .str value

/-- converters.ts processAttrs: an absent or empty attribute map yields
undefined (none); otherwise every value is deserialized. -/
def processAttrs (attrs : List (String × String)) : Option (List (String × JsonValue)) :=
  if attrs.isEmpty then none
  else some (attrs.map (fun kv => (kv.1, deserializeAttrValue kv.2)))

/-- A text node as built by the conversion: marks are attached only when
the accumulated mark list is non-empty. -/
def textNodeOf (t : String) (parentMarks : List TipTapMark) : TipTapNode :=
  .mk "text" none none (some t) (if parentMarks.isEmpty then none else some parentMarks)

/-- The text-node contribution of one entry of the conversion loops: a text
run that is non-empty (JavaScript truthiness) and not whitespace-only
becomes one text node carrying the accumulated marks; anything else
contributes nothing. -/
def textPartOf (tx0 : Option String) (marks : List TipTapMark) : List TipTapNode :=
  match tx0 with
  | some t => if t != "" && !(isWhitespaceOnly t) then [textNodeOf t marks] else []
  | none => []

mutual

/-- converters.ts convertElement. -/
def convertElement : ParsedElement → Except String TipTapNode
  | .mk none _ _ => .error "Element has no tag name"
  | .mk (some (tagName, children)) attrs0 _ =>
      let attrs := processAttrs attrs0
      match processChildren children with
      | .error msg => .error msg
      | .ok content =>
          .ok (.mk tagName attrs (if content.isEmpty then none else some content) none none)
termination_by e => (sizeOf e, 0)

/-- The child loop of converters.ts convertElement (lines 267 to 288):
text runs that are non-empty and not whitespace-only become plain text
nodes, mark elements are expanded with an empty mark accumulator, other
tagged children are converted recursively, and tagless textless children
are skipped. -/
def processChildren : List ParsedElement → Except String (List TipTapNode)
  | [] => .ok []
  | .mk tc at0 tx0 :: rest =>
      let textPart : List TipTapNode := textPartOf tx0 []
      match (match tc with
             | none => Except.ok ([] : List TipTapNode)
             | some (ct, ccs) =>
                 if isMarkType ct then extractOne (.mk (some (ct, ccs)) at0 tx0) []
                 else
                   match convertElement (.mk (some (ct, ccs)) at0 tx0) with
                   | .error m => .error m
                   | .ok n => .ok [n]) with
      | .error m => .error m
      | .ok elemPart =>
          match processChildren rest with
          | .error m => .error m
          | .ok restPart => .ok (textPart ++ elemPart ++ restPart)
termination_by cs => (sizeOf cs, 0)

/-- One element of converters.ts extractTextWithMarks (the loop body of
lines 206 to 240): a text run receives the accumulated marks, a mark
element extends the accumulator and recurses into its children, any other
tagged element is converted normally. -/
def extractOne : ParsedElement → List TipTapMark → Except String (List TipTapNode)
  | .mk tc at0 tx0, parentMarks =>
      let attrs := processAttrs at0
      let textPart : List TipTapNode := textPartOf tx0 parentMarks
      match (match tc with
             | none => Except.ok ([] : List TipTapNode)
             | some (tagName, children) =>
                 if isMarkType tagName then
                   extractMany children (parentMarks ++ [(⟨tagName, attrs⟩ : TipTapMark)])
                 else
                   match convertElement (.mk (some (tagName, children)) at0 tx0) with
                   | .error m => .error m
                   | .ok n => .ok [n]) with
      | .error m => .error m
      | .ok tagPart => .ok (textPart ++ tagPart)
termination_by e _ => (sizeOf e, 1)

/-- converters.ts extractTextWithMarks as a fold of extractOne over the
element list. -/
def extractMany : List ParsedElement → List TipTapMark → Except String (List TipTapNode)
  | [], _ => .ok []
  | e :: rest, parentMarks =>
      match extractOne e parentMarks with
      | .error m => .error m
      | .ok part =>
          match extractMany rest parentMarks with
          | .error m => .error m
          | .ok parts => .ok (part ++ parts)
termination_by es _ => (sizeOf es, 0)

/-- converters.ts processElements: top-level doc elements are unwrapped by
splicing their processed children, mark elements are expanded, text runs
become text nodes unless whitespace-only, other elements are converted. -/
def processElements : List ParsedElement → Except String (List TipTapNode)
  | [] => .ok []
  | .mk tc at0 tx0 :: rest =>
      let textPart : List TipTapNode := textPartOf tx0 []
      match (match tc with
             | none => Except.ok ([] : List TipTapNode)
             | some (tagName, docChildren) =>
                 if tagName = "doc" then
                   match docChildren with
                   | [] => Except.ok ([] : List TipTapNode)
                   | c :: cs => processElements (c :: cs)
                 else if isMarkType tagName then
                   extractOne (.mk (some (tagName, docChildren)) at0 tx0) []
                 else
                   match convertElement (.mk (some (tagName, docChildren)) at0 tx0) with
                   | .error m => .error m
                   | .ok n => .ok [n]) with
      | .error m => .error m
      | .ok tagPart =>
          match processElements rest with
          | .error m => .error m
          | .ok restPart => .ok (textPart ++ tagPart ++ restPart)
termination_by es => (sizeOf es, 0)

end

/-- converters.ts extractTextWithMarks (the named entry point; its loop is
extractMany). -/
def extractTextWithMarks (elements : List ParsedElement)
    (parentMarks : List TipTapMark) : Except String (List TipTapNode) :=
  extractMany elements parentMarks

/-!
Fuelled twins of the conversion functions.  They compute the same results
(see the agreement lemmas below) but recurse structurally on a fuel
counter, so that the kernel can evaluate them on concrete inputs; none
signals exhausted fuel.
-/

mutual

def convertElementF : Nat → ParsedElement → Option (Except String TipTapNode)
  | 0, _ => none
  | _ + 1, .mk none _ _ => some (.error "Element has no tag name")
  | f + 1, .mk (some (tagName, children)) attrs0 _ =>
      match processChildrenF f children with
      | none => none
      | some (.error msg) => some (.error msg)
      | some (.ok content) =>
          some (.ok (.mk tagName (processAttrs attrs0)
            (if content.isEmpty then none else some content) none none))

def processChildrenF : Nat → List ParsedElement → Option (Except String (List TipTapNode))
  | 0, _ => none
  | _ + 1, [] => some (.ok [])
  | f + 1, .mk tc at0 tx0 :: rest =>
      let textPart : List TipTapNode := textPartOf tx0 []
      match (match tc with
             | none => some (Except.ok ([] : List TipTapNode))
             | some (ct, ccs) =>
                 if isMarkType ct then extractOneF f (.mk (some (ct, ccs)) at0 tx0) []
                 else
                   match convertElementF f (.mk (some (ct, ccs)) at0 tx0) with
                   | none => none
                   | some (.error m) => some (.error m)
                   | some (.ok n) => some (.ok [n])) with
      | none => none
      | some (.error m) => some (.error m)
      | some (.ok elemPart) =>
          match processChildrenF f rest with
          | none => none
          | some (.error m) => some (.error m)
          | some (.ok restPart) => some (.ok (textPart ++ elemPart ++ restPart))

def extractOneF : Nat → ParsedElement → List TipTapMark → Option (Except String (List TipTapNode))
  | 0, _, _ => none
  | f + 1, .mk tc at0 tx0, parentMarks =>
      let attrs := processAttrs at0
      let textPart : List TipTapNode := textPartOf tx0 parentMarks
      match (match tc with
             | none => some (Except.ok ([] : List TipTapNode))
             | some (tagName, children) =>
                 if isMarkType tagName then
                   extractManyF f children (parentMarks ++ [(⟨tagName, attrs⟩ : TipTapMark)])
                 else
                   match convertElementF f (.mk (some (tagName, children)) at0 tx0) with
                   | none => none
                   | some (.error m) => some (.error m)
                   | some (.ok n) => some (.ok [n])) with
      | none => none
      | some (.error m) => some (.error m)
      | some (.ok tagPart) => some (.ok (textPart ++ tagPart))

def extractManyF : Nat → List ParsedElement → List TipTapMark → Option (Except String (List TipTapNode))
  | 0, _, _ => none
  | _ + 1, [], _ => some (.ok [])
  | f + 1, e :: rest, parentMarks =>
      match extractOneF f e parentMarks with
      | none => none
      | some (.error m) => some (.error m)
      | some (.ok part) =>
          match extractManyF f rest parentMarks with
          | none => none
          | some (.error m) => some (.error m)
          | some (.ok parts) => some (.ok (part ++ parts))

def processElementsF : Nat → List ParsedElement → Option (Except String (List TipTapNode))
  | 0, _ => none
  | _ + 1, [] => some (.ok [])
  | f + 1, .mk tc at0 tx0 :: rest =>
      let textPart : List TipTapNode := textPartOf tx0 []
      match (match tc with
             | none => some (Except.ok ([] : List TipTapNode))
             | some (tagName, docChildren) =>
                 if tagName = "doc" then
                   match docChildren with
                   | [] => some (Except.ok ([] : List TipTapNode))
                   | c :: cs => processElementsF f (c :: cs)
                 else if isMarkType tagName then
                   extractOneF f (.mk (some (tagName, docChildren)) at0 tx0) []
                 else
                   match convertElementF f (.mk (some (tagName, docChildren)) at0 tx0) with
                   | none => none
                   | some (.error m) => some (.error m)
                   | some (.ok n) => some (.ok [n])) with
      | none => none
      | some (.error m) => some (.error m)
      | some (.ok tagPart) =>
          match processElementsF f rest with
          | none => none
          | some (.error m) => some (.error m)
          | some (.ok restPart) => some (.ok (textPart ++ tagPart ++ restPart))

end

/-- Fuelled twin of xmlToJson. -/
def xmlToJsonF (fuel : Nat) (xml : String) : Option (Except String TipTapDoc) :=
  match xmlParse xml with
  | none => some (.error "Invalid XML")
  | some [] => some (.ok ⟨some []⟩)
  | some (p :: ps) =>
      match processElementsF fuel (p :: ps) with
      | none => none
      | some (.error m) => some (.error m)
      | some (.ok content) =>
          some (.ok ⟨if content.isEmpty then none else some content⟩)

/-- converters.ts xmlToJson: a failed generic parse or a conversion error
surfaces as an error; an empty parse yields the document with an explicit
empty content array; otherwise the content key is present only when the
converted content is non-empty. -/
def xmlToJson (xml : String) : Except String TipTapDoc :=
  match xmlParse xml with
  | none => .error "Invalid XML"
  | some [] => .ok ⟨some []⟩
  | some (p :: ps) =>
      match processElements (p :: ps) with
      | .error m => .error m
      | .ok content => .ok ⟨if content.isEmpty then none else some content⟩

/-- converters.ts validateXml: parse-only check with the same generic
parser, returning an error message exactly when parsing fails. -/
def validateXml (xml : String) : Option String :=
  match xmlParse xml with
  | some _ => none
  | none => some "Invalid XML"

/-- converters.ts validateJson: parse-only JSON well-formedness check. -/
def validateJson (json : String) : Option String :=
  match jsonParse json with
  | some _ => none
  | none => some "Invalid JSON"

/-!
## The synchronisation layer (App.tsx)

The sync callbacks parse one text buffer, convert, and write the other text
buffer, leaving it untouched on any failure.  Reading the parsed JSON value
as a typed document tree is a modelling boundary: the JavaScript code uses
the parsed object directly (dynamic typing), so shape mismatches surface as
exceptions inside the conversion; here they surface as decoder errors,
which take the same error path.
-/

mutual

/-- Modelled from the spec: reading a parsed JSON value as a document node
(data model of spec section 3); a shape mismatch is a conversion failure. -/
def decodeNode : Nat → JsonValue → Except String TipTapNode
  | 0, _ => .error "Conversion failed"
  | f + 1, v =>
      match v with
      | .obj fields =>
          match fields.lookup "type" with
          | some (.str t) =>
              match (match fields.lookup "attrs" with
                     | none => Except.ok (none : Option (List (String × JsonValue)))
                     | some (.obj kvs) => Except.ok (some kvs)
                     | some _ => Except.error "Conversion failed") with
              | .error m => .error m
              | .ok attrs =>
                  match (match fields.lookup "content" with
                         | none => Except.ok (none : Option (List TipTapNode))
                         | some (.arr xs) =>
                             match decodeNodes f xs with
                             | .error m => .error m
                             | .ok ns => .ok (some ns)
                         | some _ => Except.error "Conversion failed") with
                  | .error m => .error m
                  | .ok content =>
                      match (match fields.lookup "text" with
                             | none => Except.ok (none : Option String)
                             | some (.str s) => Except.ok (some s)
                             | some _ => Except.error "Conversion failed") with
                      | .error m => .error m
                      | .ok text =>
                          match (match fields.lookup "marks" with
                                 | none => Except.ok (none : Option (List TipTapMark))
                                 | some (.arr ms) =>
                                     match decodeMarks f ms with
                                     | .error m => .error m
                                     | .ok mks => .ok (some mks)
                                 | some _ => Except.error "Conversion failed") with
                          | .error m => .error m
                          | .ok marks => .ok (.mk t attrs content text marks)
          | _ => .error "Conversion failed"
      | _ => .error "Conversion failed"

def decodeNodes : Nat → List JsonValue → Except String (List TipTapNode)
  | 0, _ => .error "Conversion failed"
  | _ + 1, [] => .ok []
  | f + 1, v :: rest =>
      match decodeNode f v with
      | .error m => .error m
      | .ok n =>
          match decodeNodes f rest with
          | .error m => .error m
          | .ok ns => .ok (n :: ns)

def decodeMarks : Nat → List JsonValue → Except String (List TipTapMark)
  | 0, _ => .error "Conversion failed"
  | _ + 1, [] => .ok []
  | f + 1, v :: rest =>
      match (match v with
             | .obj fields =>
                 match fields.lookup "type" with
                 | some (.str t) =>
                     match fields.lookup "attrs" with
                     | none => Except.ok (⟨t, none⟩ : TipTapMark)
                     | some (.obj kvs) => Except.ok (⟨t, some kvs⟩ : TipTapMark)
                     | some _ => Except.error "Conversion failed"
                 | _ => Except.error "Conversion failed"
             | _ => Except.error "Conversion failed") with
      | .error m => .error m
      | .ok mk0 =>
          match decodeMarks f rest with
          | .error m => .error m
          | .ok ms => .ok (mk0 :: ms)

end

mutual

/-- Structural size of a JSON value, used as decoder fuel. -/
def jsonSizeV : JsonValue → Nat
  | .arr xs => 1 + jsonSizeL xs
  | .obj kvs => 1 + jsonSizeF kvs
  | _ => 1

def jsonSizeL : List JsonValue → Nat
  | [] => 1
  | v :: rest => 1 + jsonSizeV v + jsonSizeL rest

def jsonSizeF : List (String × JsonValue) → Nat
  | [] => 1
  | (_, v) :: rest => 1 + jsonSizeV v + jsonSizeF rest

end

/-- Modelled from the spec: reading a parsed JSON value as a whole document. -/
def decodeDoc (v : JsonValue) : Except String TipTapDoc :=
  match v with
  | .obj fields =>
      match fields.lookup "content" with
      | none => .ok ⟨none⟩
      | some (.arr xs) =>
          match decodeNodes (jsonSizeV v + 1) xs with
          | .error m => .error m
          | .ok ns => .ok ⟨some ns⟩
      | some _ => .error "Conversion failed"
  | _ => .error "Conversion failed"

/-- JSON.parse of the JSON buffer followed by reading the document shape. -/
def jsonTextToDoc (json : String) : Except String TipTapDoc :=
  match jsonParse json with
  | none => .error "Invalid JSON"
  | some v => decodeDoc v

/-- A mark as a JSON value (for serializing the document back to text). -/
def encodeMark (m : TipTapMark) : JsonValue :=
  .obj ([("type", .str m.type)] ++
    (match m.attrs with
     | none => []
     | some kvs => [("attrs", .obj kvs)]))

mutual

/-- A node as a JSON value, fields in the order the conversion creates
them. -/
def encodeNode : TipTapNode → JsonValue
  | .mk t a c tx m =>
      .obj ([("type", .str t)] ++
        (match a with
         | none => ([] : List (String × JsonValue))
         | some kvs => [("attrs", .obj kvs)]) ++
        (match c with
         | none => ([] : List (String × JsonValue))
         | some cs => [("content", .arr (encodeNodes cs))]) ++
        (match tx with
         | none => ([] : List (String × JsonValue))
         | some s => [("text", .str s)]) ++
        (match m with
         | none => ([] : List (String × JsonValue))
         | some ms => [("marks", .arr (ms.map encodeMark))]))

def encodeNodes : List TipTapNode → List JsonValue
  | [] => []
  | n :: rest => encodeNode n :: encodeNodes rest

end

/-- App.tsx line 76: JSON.stringify of the converted document (the model
does not reproduce the two-space pretty-printing, only the value). -/
def docToJsonText (doc : TipTapDoc) : String :=
  jsonStringify (.obj ([("type", .str "doc")] ++
    (match doc.content with
     | none => ([] : List (String × JsonValue))
     | some cs => [("content", .arr (encodeNodes cs))])))

/-- Which editor panel was focused last (App.tsx activeEditorRef). -/
inductive ActiveEditor where
  | json : ActiveEditor
  | xml : ActiveEditor
deriving DecidableEq, Repr

/-- The mutable state the sync callbacks touch (App.tsx useState values). -/
structure AppState where
  jsonValue : String
  xmlValue : String
  conversionError : Option String
deriving DecidableEq, Repr

/-- App.tsx syncJsonToXml: no-op unless the JSON editor is active and no
sync is in flight; no-op when JSON validation fails; otherwise parse and
convert, updating the XML buffer on success and only the conversion error
on failure. -/
def syncJsonToXml (activeEditor : Option ActiveEditor) (isSyncing : Bool)
    (st : AppState) (json : String) : AppState :=
  if activeEditor ≠ some ActiveEditor.json ∨ isSyncing = true then st
  else
    match validateJson json with
    | some _ => st
    | none =>
        match jsonTextToDoc json with
        | .ok doc =>
            { st with xmlValue := jsonToXml doc, conversionError := none }
        | .error e => { st with conversionError := some e }

/-- App.tsx syncXmlToJson: symmetric to syncJsonToXml. -/
def syncXmlToJson (activeEditor : Option ActiveEditor) (isSyncing : Bool)
    (st : AppState) (xml : String) : AppState :=
  if activeEditor ≠ some ActiveEditor.xml ∨ isSyncing = true then st
  else
    match validateXml xml with
    | some _ => st
    | none =>
        match xmlToJson xml with
        | .ok doc =>
            { st with jsonValue := docToJsonText doc, conversionError := none }
        | .error e => { st with conversionError := some e }

/-!
## One-step unfolding lemmas for the conversion functions

The equation lemmas Lean generates for these well-founded definitions are
split by the inner matches; the following lemmas restate one unfolding step
each, in the shape of the source code.
-/


theorem convertElement_none (a : List (String × String)) (t : Option String) :
    convertElement (.mk none a t) = .error "Element has no tag name" := by
  simp [convertElement]

theorem convertElement_some (tg : String) (cs : List ParsedElement)
    (a : List (String × String)) (t : Option String) :
    convertElement (.mk (some (tg, cs)) a t) =
      (match processChildren cs with
       | .error m => .error m
       | .ok content =>
           .ok (.mk tg (processAttrs a)
             (if content.isEmpty then none else some content) none none)) := by
  cases hc : processChildren cs <;> simp [convertElement, hc]

theorem processChildren_nil : processChildren [] = .ok [] := by
  simp [processChildren]

theorem processChildren_cons (tc : Option (String × List ParsedElement))
    (at0 : List (String × String)) (tx0 : Option String) (rest : List ParsedElement) :
    processChildren (.mk tc at0 tx0 :: rest) =
      (match (match tc with
              | none => Except.ok ([] : List TipTapNode)
              | some (ct, ccs) =>
                  if isMarkType ct then extractOne (.mk (some (ct, ccs)) at0 tx0) []
                  else
                    match convertElement (.mk (some (ct, ccs)) at0 tx0) with
                    | .error m => .error m
                    | .ok n => .ok [n]) with
       | .error m => .error m
       | .ok elemPart =>
           match processChildren rest with
           | .error m => .error m
           | .ok restPart => .ok (textPartOf tx0 [] ++ elemPart ++ restPart)) := by
  cases tc with
  | none =>
      cases tx0 <;> cases hr : processChildren rest <;>
        simp [processChildren, hr, textPartOf]
  | some tcv =>
      obtain ⟨ct, ccs⟩ := tcv
      by_cases hm : isMarkType ct = true
      · cases ho : extractOne (.mk (some (ct, ccs)) at0 tx0) [] <;>
          cases hr : processChildren rest <;> cases tx0 <;>
            simp [processChildren, hm, ho, hr, textPartOf]
      · cases hc : convertElement (.mk (some (ct, ccs)) at0 tx0) <;>
          cases hr : processChildren rest <;> cases tx0 <;>
            simp [processChildren, hm, hc, hr, textPartOf]

theorem extractOne_unfold (tc : Option (String × List ParsedElement))
    (at0 : List (String × String)) (tx0 : Option String) (pm : List TipTapMark) :
    extractOne (.mk tc at0 tx0) pm =
      (match (match tc with
              | none => Except.ok ([] : List TipTapNode)
              | some (tagName, children) =>
                  if isMarkType tagName then
                    extractMany children (pm ++ [(⟨tagName, processAttrs at0⟩ : TipTapMark)])
                  else
                    match convertElement (.mk (some (tagName, children)) at0 tx0) with
                    | .error m => .error m
                    | .ok n => .ok [n]) with
       | .error m => .error m
       | .ok tagPart => .ok (textPartOf tx0 pm ++ tagPart)) := by
  cases tc with
  | none => cases tx0 <;> simp [extractOne, textPartOf]
  | some tcv =>
      obtain ⟨ct, ccs⟩ := tcv
      by_cases hm : isMarkType ct = true
      · cases ho : extractMany ccs (pm ++ [(⟨ct, processAttrs at0⟩ : TipTapMark)]) <;>
          cases tx0 <;> simp [extractOne, hm, ho, textPartOf]
      · cases hc : convertElement (.mk (some (ct, ccs)) at0 tx0) <;>
          cases tx0 <;> simp [extractOne, hm, hc, textPartOf]

theorem extractMany_nil (pm : List TipTapMark) : extractMany [] pm = .ok [] := by
  simp [extractMany]

theorem extractMany_cons (e : ParsedElement) (rest : List ParsedElement)
    (pm : List TipTapMark) :
    extractMany (e :: rest) pm =
      (match extractOne e pm with
       | .error m => .error m
       | .ok part =>
           match extractMany rest pm with
           | .error m => .error m
           | .ok parts => .ok (part ++ parts)) := by
  cases ho : extractOne e pm <;> cases hr : extractMany rest pm <;>
    simp [extractMany, ho, hr]

theorem processElements_nil : processElements [] = .ok [] := by
  simp [processElements]

theorem processElements_cons (tc : Option (String × List ParsedElement))
    (at0 : List (String × String)) (tx0 : Option String) (rest : List ParsedElement) :
    processElements (.mk tc at0 tx0 :: rest) =
      (match (match tc with
              | none => Except.ok ([] : List TipTapNode)
              | some (tagName, docChildren) =>
                  if tagName = "doc" then processElements docChildren
                  else if isMarkType tagName then
                    extractOne (.mk (some (tagName, docChildren)) at0 tx0) []
                  else
                    match convertElement (.mk (some (tagName, docChildren)) at0 tx0) with
                    | .error m => .error m
                    | .ok n => .ok [n]) with
       | .error m => .error m
       | .ok tagPart =>
           match processElements rest with
           | .error m => .error m
           | .ok restPart => .ok (textPartOf tx0 [] ++ tagPart ++ restPart)) := by
  cases tc with
  | none =>
      cases tx0 <;> cases hr : processElements rest <;>
        simp [processElements, hr, textPartOf]
  | some tcv =>
      obtain ⟨ct, ccs⟩ := tcv
      by_cases hd : ct = "doc"
      · subst hd
        cases ccs with
        | nil =>
            cases tx0 <;> cases hr : processElements rest <;>
              simp [processElements, hr, textPartOf, processElements_nil]
        | cons c cs =>
            cases hdc : processElements (c :: cs) <;>
              cases hr : processElements rest <;> cases tx0 <;>
                simp [processElements, hdc, hr, textPartOf]
      · by_cases hm : isMarkType ct = true
        · cases ho : extractOne (.mk (some (ct, ccs)) at0 tx0) [] <;>
            cases hr : processElements rest <;> cases tx0 <;> cases ccs <;>
              simp [processElements, hd, hm, ho, hr, textPartOf]
        · cases hc : convertElement (.mk (some (ct, ccs)) at0 tx0) <;>
            cases hr : processElements rest <;> cases tx0 <;> cases ccs <;>
              simp [processElements, hd, hm, hc, hr, textPartOf]



theorem processChildren_cons_none (at0 : List (String × String)) (tx0 : Option String)
    (rest : List ParsedElement) :
    processChildren (.mk none at0 tx0 :: rest) =
      (match processChildren rest with
       | .error m => .error m
       | .ok restPart => .ok (textPartOf tx0 [] ++ restPart)) := by
  cases hr : processChildren rest <;> simp [processChildren_cons, hr]

theorem processChildren_cons_some (ct : String) (ccs : List ParsedElement)
    (at0 : List (String × String)) (tx0 : Option String) (rest : List ParsedElement) :
    processChildren (.mk (some (ct, ccs)) at0 tx0 :: rest) =
      (match (if isMarkType ct then extractOne (.mk (some (ct, ccs)) at0 tx0) []
              else
                match convertElement (.mk (some (ct, ccs)) at0 tx0) with
                | .error m => .error m
                | .ok n => .ok [n]) with
       | .error m => .error m
       | .ok elemPart =>
           match processChildren rest with
           | .error m => .error m
           | .ok restPart => .ok (textPartOf tx0 [] ++ elemPart ++ restPart)) := by
  by_cases hm : isMarkType ct = true
  · cases ho : extractOne (.mk (some (ct, ccs)) at0 tx0) [] <;>
      cases hr : processChildren rest <;>
        simp [processChildren_cons, hm, ho, hr]
  · cases hc : convertElement (.mk (some (ct, ccs)) at0 tx0) <;>
      cases hr : processChildren rest <;>
        simp [processChildren_cons, hm, hc, hr]

theorem extractOne_none (at0 : List (String × String)) (tx0 : Option String)
    (pm : List TipTapMark) :
    extractOne (.mk none at0 tx0) pm = .ok (textPartOf tx0 pm) := by
  simp [extractOne_unfold]

theorem extractOne_some (ct : String) (ccs : List ParsedElement)
    (at0 : List (String × String)) (tx0 : Option String) (pm : List TipTapMark) :
    extractOne (.mk (some (ct, ccs)) at0 tx0) pm =
      (match (if isMarkType ct then
                extractMany ccs (pm ++ [(⟨ct, processAttrs at0⟩ : TipTapMark)])
              else
                match convertElement (.mk (some (ct, ccs)) at0 tx0) with
                | .error m => .error m
                | .ok n => .ok [n]) with
       | .error m => .error m
       | .ok tagPart => .ok (textPartOf tx0 pm ++ tagPart)) := by
  by_cases hm : isMarkType ct = true
  · cases ho : extractMany ccs (pm ++ [(⟨ct, processAttrs at0⟩ : TipTapMark)]) <;>
      simp [extractOne_unfold, hm, ho]
  · cases hc : convertElement (.mk (some (ct, ccs)) at0 tx0) <;>
      simp [extractOne_unfold, hm, hc]

theorem processElements_cons_none (at0 : List (String × String)) (tx0 : Option String)
    (rest : List ParsedElement) :
    processElements (.mk none at0 tx0 :: rest) =
      (match processElements rest with
       | .error m => .error m
       | .ok restPart => .ok (textPartOf tx0 [] ++ restPart)) := by
  cases hr : processElements rest <;> simp [processElements_cons, hr]

theorem processElements_cons_some (ct : String) (ccs : List ParsedElement)
    (at0 : List (String × String)) (tx0 : Option String) (rest : List ParsedElement) :
    processElements (.mk (some (ct, ccs)) at0 tx0 :: rest) =
      (match (if ct = "doc" then processElements ccs
              else if isMarkType ct then extractOne (.mk (some (ct, ccs)) at0 tx0) []
              else
                match convertElement (.mk (some (ct, ccs)) at0 tx0) with
                | .error m => .error m
                | .ok n => .ok [n]) with
       | .error m => .error m
       | .ok tagPart =>
           match processElements rest with
           | .error m => .error m
           | .ok restPart => .ok (textPartOf tx0 [] ++ tagPart ++ restPart)) := by
  by_cases hd : ct = "doc"
  · cases hdc : processElements ccs <;>
      cases hr : processElements rest <;>
        simp [processElements_cons, hd, hdc, hr]
  · by_cases hm : isMarkType ct = true
    · cases ho : extractOne (.mk (some (ct, ccs)) at0 tx0) [] <;>
        cases hr : processElements rest <;>
          simp [processElements_cons, hd, hm, ho, hr]
    · cases hc : convertElement (.mk (some (ct, ccs)) at0 tx0) <;>
        cases hr : processElements rest <;>
          simp [processElements_cons, hd, hm, hc, hr]


/-!
## Statement vocabulary
-/

/-- A mark whose attrs key is not an explicit empty map. -/
def markOmitsEmpty (m : TipTapMark) : Bool :=
  match m.attrs with
  | some [] => false
  | _ => true

/-- An attrs field that is not an explicit empty map. -/
def attrsNE (a : Option (List (String × JsonValue))) : Bool :=
  match a with
  | some [] => false
  | _ => true

/-- A marks field that is absent or non-empty with all mark attrs
non-empty. -/
def marksNE (m : Option (List TipTapMark)) : Bool :=
  match m with
  | none => true
  | some [] => false
  | some (m0 :: ms) => (m0 :: ms).all markOmitsEmpty

mutual

/-- The attrs, marks and content keys of the node are present only when
non-empty, recursively, and all mark attrs as well. -/
def nodeOmitsEmpty : TipTapNode → Bool
  | .mk _ a c _ m => attrsNE a && marksNE m && contentNE c

/-- A content field that is absent or non-empty with all children
satisfying nodeOmitsEmpty. -/
def contentNE : Option (List TipTapNode) → Bool
  | none => true
  | some [] => false
  | some (c :: cs) => nodesOmitEmpty (c :: cs)

def nodesOmitEmpty : List TipTapNode → Bool
  | [] => true
  | n :: rest => nodeOmitsEmpty n && nodesOmitEmpty rest

end

/-- nodeOmitsEmpty at document level (an explicit empty content array at
the root violates it). -/
def docOmitsEmpty (d : TipTapDoc) : Bool :=
  match d.content with
  | none => true
  | some [] => false
  | some (c :: cs) => nodesOmitEmpty (c :: cs)

/-- Join a list of strings with a separator (the join method of JavaScript
arrays). -/
def joinSepStr (sep : String) : List String → String
  | [] => ""
  | [s] => s
  | s :: rest => s ++ sep ++ joinSepStr sep rest

/-!
## Agreement of the fuelled evaluators with the conversion functions
-/


theorem convF_agrees : ∀ f : Nat,
    (∀ e r, convertElementF f e = some r → convertElement e = r) ∧
    (∀ cs r, processChildrenF f cs = some r → processChildren cs = r) ∧
    (∀ e ms r, extractOneF f e ms = some r → extractOne e ms = r) ∧
    (∀ es ms r, extractManyF f es ms = some r → extractMany es ms = r) ∧
    (∀ es r, processElementsF f es = some r → processElements es = r) := by
  intro f
  induction f with
  | zero =>
      refine ⟨?_, ?_, ?_, ?_, ?_⟩
      · intro e r h; simp [convertElementF] at h
      · intro cs r h; simp [processChildrenF] at h
      · intro e ms r h; simp [extractOneF] at h
      · intro es ms r h; simp [extractManyF] at h
      · intro es r h; simp [processElementsF] at h
  | succ f ih =>
      obtain ⟨ih1, ih2, ih3, ih4, ih5⟩ := ih
      refine ⟨?_, ?_, ?_, ?_, ?_⟩
      · -- convertElement
        rintro ⟨tc, at0, tx0⟩ r h
        cases tc with
        | none =>
            simp only [convertElementF, Option.some.injEq] at h
            rw [convertElement_none, h]
        | some tcv =>
            obtain ⟨tagName, children⟩ := tcv
            simp only [convertElementF] at h
            rw [convertElement_some]
            cases hpc : processChildrenF f children with
            | none => rw [hpc] at h; simp at h
            | some pr =>
                rw [hpc] at h
                rw [ih2 children pr hpc]
                cases pr with
                | error m => simp_all
                | ok content => simp_all
      · -- processChildren
        intro cs r h
        cases cs with
        | nil =>
            simp only [processChildrenF, Option.some.injEq] at h
            rw [processChildren_nil, h]
        | cons c rest =>
            obtain ⟨tc, at0, tx0⟩ := c
            cases tc with
            | none =>
                rw [processChildren_cons_none]
                simp only [processChildrenF] at h
                cases hr : processChildrenF f rest with
                | none => rw [hr] at h; simp at h
                | some rr =>
                    rw [hr] at h
                    rw [ih2 rest rr hr]
                    cases rr with
                    | error m => simp_all
                    | ok restPart => simp_all
            | some tcv =>
                obtain ⟨ct, ccs⟩ := tcv
                rw [processChildren_cons_some]
                simp only [processChildrenF] at h
                by_cases hm : isMarkType ct = true
                · rw [if_pos hm] at h ⊢
                  cases ho : extractOneF f (ParsedElement.mk (some (ct, ccs)) at0 tx0) [] with
                  | none => rw [ho] at h; simp at h
                  | some er =>
                      rw [ho] at h
                      rw [ih3 _ _ _ ho]
                      cases er with
                      | error m => simp_all
                      | ok part =>
                          cases hr : processChildrenF f rest with
                          | none => rw [hr] at h; simp at h
                          | some rr =>
                              rw [hr] at h
                              rw [ih2 rest rr hr]
                              cases rr with
                              | error m => simp_all
                              | ok restPart => simp_all
                · rw [if_neg hm] at h ⊢
                  cases hc : convertElementF f (ParsedElement.mk (some (ct, ccs)) at0 tx0) with
                  | none => rw [hc] at h; simp at h
                  | some er =>
                      rw [hc] at h
                      rw [ih1 _ _ hc]
                      cases er with
                      | error m => simp_all
                      | ok n =>
                          cases hr : processChildrenF f rest with
                          | none => rw [hr] at h; simp at h
                          | some rr =>
                              rw [hr] at h
                              rw [ih2 rest rr hr]
                              cases rr with
                              | error m => simp_all
                              | ok restPart => simp_all
      · -- extractOne
        rintro ⟨tc, at0, tx0⟩ ms r h
        cases tc with
        | none =>
            rw [extractOne_none]
            simp only [extractOneF] at h
            simp_all
        | some tcv =>
            obtain ⟨tagName, children⟩ := tcv
            rw [extractOne_some]
            simp only [extractOneF] at h
            by_cases hm : isMarkType tagName = true
            · rw [if_pos hm] at h ⊢
              cases he : extractManyF f children (ms ++ [(⟨tagName, processAttrs at0⟩ : TipTapMark)]) with
              | none => rw [he] at h; simp at h
              | some er =>
                  rw [he] at h
                  rw [ih4 _ _ _ he]
                  cases er with
                  | error m => simp_all
                  | ok part => simp_all
            · rw [if_neg hm] at h ⊢
              cases hc : convertElementF f (ParsedElement.mk (some (tagName, children)) at0 tx0) with
              | none => rw [hc] at h; simp at h
              | some er =>
                  rw [hc] at h
                  rw [ih1 _ _ hc]
                  cases er with
                  | error m => simp_all
                  | ok n => simp_all
      · -- extractMany
        intro es ms r h
        cases es with
        | nil =>
            simp only [extractManyF, Option.some.injEq] at h
            rw [extractMany_nil, h]
        | cons e rest =>
            simp only [extractManyF] at h
            rw [extractMany_cons]
            cases ho : extractOneF f e ms with
            | none => rw [ho] at h; simp at h
            | some er =>
                rw [ho] at h
                rw [ih3 _ _ _ ho]
                cases er with
                | error m => simp_all
                | ok part =>
                    cases hr : extractManyF f rest ms with
                    | none => rw [hr] at h; simp at h
                    | some rr =>
                        rw [hr] at h
                        rw [ih4 _ _ _ hr]
                        cases rr with
                        | error m => simp_all
                        | ok parts => simp_all
      · -- processElements
        intro es r h
        cases es with
        | nil =>
            simp only [processElementsF, Option.some.injEq] at h
            rw [processElements_nil, h]
        | cons c rest =>
            obtain ⟨tc, at0, tx0⟩ := c
            cases tc with
            | none =>
                rw [processElements_cons_none]
                simp only [processElementsF] at h
                cases hr : processElementsF f rest with
                | none => rw [hr] at h; simp at h
                | some rr =>
                    rw [hr] at h
                    rw [ih5 rest rr hr]
                    cases rr with
                    | error m => simp_all
                    | ok restPart => simp_all
            | some tcv =>
                obtain ⟨tagName, docChildren⟩ := tcv
                rw [processElements_cons_some]
                simp only [processElementsF] at h
                by_cases hd : tagName = "doc"
                · subst hd
                  rw [if_pos rfl] at h ⊢
                  cases docChildren with
                  | nil =>
                      dsimp only at h
                      rw [processElements_nil]
                      cases hr : processElementsF f rest with
                      | none => rw [hr] at h; simp at h
                      | some rr =>
                          rw [hr] at h
                          rw [ih5 rest rr hr]
                          cases rr with
                          | error m => simp_all
                          | ok restPart => simp_all
                  | cons dc dcs =>
                      dsimp only at h
                      cases hdc : processElementsF f (dc :: dcs) with
                      | none => rw [hdc] at h; simp at h
                      | some dr =>
                          rw [hdc] at h
                          rw [ih5 _ _ hdc]
                          cases dr with
                          | error m => simp_all
                          | ok tagPart =>
                              cases hr : processElementsF f rest with
                              | none => rw [hr] at h; simp at h
                              | some rr =>
                                  rw [hr] at h
                                  rw [ih5 rest rr hr]
                                  cases rr with
                                  | error m => simp_all
                                  | ok restPart => simp_all
                · rw [if_neg hd] at h ⊢
                  by_cases hm : isMarkType tagName = true
                  · rw [if_pos hm] at h ⊢
                    cases ho : extractOneF f (ParsedElement.mk (some (tagName, docChildren)) at0 tx0) [] with
                    | none => rw [ho] at h; simp at h
                    | some er =>
                        rw [ho] at h
                        rw [ih3 _ _ _ ho]
                        cases er with
                        | error m => simp_all
                        | ok part =>
                            cases hr : processElementsF f rest with
                            | none => rw [hr] at h; simp at h
                            | some rr =>
                                rw [hr] at h
                                rw [ih5 rest rr hr]
                                cases rr with
                                | error m => simp_all
                                | ok restPart => simp_all
                  · rw [if_neg hm] at h ⊢
                    cases hc : convertElementF f (ParsedElement.mk (some (tagName, docChildren)) at0 tx0) with
                    | none => rw [hc] at h; simp at h
                    | some er =>
                        rw [hc] at h
                        rw [ih1 _ _ hc]
                        cases er with
                        | error m => simp_all
                        | ok n =>
                            cases hr : processElementsF f rest with
                            | none => rw [hr] at h; simp at h
                            | some rr =>
                                rw [hr] at h
                                rw [ih5 rest rr hr]
                                cases rr with
                                | error m => simp_all
                                | ok restPart => simp_all



theorem processElements_eval (f : Nat) (es : List ParsedElement)
    (r : Except String (List TipTapNode)) (h : processElementsF f es = some r) :
    processElements es = r :=
  (convF_agrees f).2.2.2.2 es r h

theorem processChildren_eval (f : Nat) (cs : List ParsedElement)
    (r : Except String (List TipTapNode)) (h : processChildrenF f cs = some r) :
    processChildren cs = r :=
  (convF_agrees f).2.1 cs r h

theorem extractMany_eval (f : Nat) (es : List ParsedElement) (ms : List TipTapMark)
    (r : Except String (List TipTapNode)) (h : extractManyF f es ms = some r) :
    extractMany es ms = r :=
  (convF_agrees f).2.2.2.1 es ms r h

theorem convertElement_eval (f : Nat) (e : ParsedElement)
    (r : Except String TipTapNode) (h : convertElementF f e = some r) :
    convertElement e = r :=
  (convF_agrees f).1 e r h

theorem xmlToJson_eval (f : Nat) (xml : String) (r : Except String TipTapDoc)
    (h : xmlToJsonF f xml = some r) : xmlToJson xml = r := by
  cases hp : xmlParse xml with
  | none =>
      simp only [xmlToJsonF, hp, Option.some.injEq] at h
      simp only [xmlToJson, hp]
      rw [h]
  | some es =>
      cases es with
      | nil =>
          simp only [xmlToJsonF, hp, Option.some.injEq] at h
          simp only [xmlToJson, hp]
          rw [h]
      | cons p ps =>
          simp only [xmlToJsonF, hp] at h
          simp only [xmlToJson, hp]
          cases hpe : processElementsF f (p :: ps) with
          | none => rw [hpe] at h; simp at h
          | some pr =>
              rw [hpe] at h
              rw [processElements_eval f _ _ hpe]
              cases pr with
              | error m => simp_all
              | ok content => simp_all



/-!
## Claims
-/

/-- C2: serializing a text node with text x and marks bold then italic
produces exactly the bold wrapper outermost and the italic wrapper
innermost, and parsing that string back produces a single text node whose
marks list is bold then italic (outermost first). -/
theorem claim_C2 :
    nodeToXml (.mk "text" none none (some "x")
      (some [⟨"bold", none⟩, ⟨"italic", none⟩])) "" = "<bold><italic>x</italic></bold>" ∧
    xmlToJson "<bold><italic>x</italic></bold>" =
      .ok ⟨some [.mk "text" none none (some "x")
        (some [⟨"bold", none⟩, ⟨"italic", none⟩])]⟩ :=
  ⟨rfl, xmlToJson_eval 10 _ _ rfl⟩

/-- C5 counterexample: a parsed element with no discoverable tag name met
during conversion is silently dropped with no error, at the top level as
well as in the child loop and in the mark-extraction loop, contradicting
the claim that conversion fails loudly on such elements. -/
theorem claim_C5_counterexample :
    processElements [ParsedElement.mk none [] none] = .ok [] ∧
    processChildren [ParsedElement.mk none [] none] = .ok [] ∧
    extractMany [ParsedElement.mk none [] none] [] = .ok [] :=
  ⟨processElements_eval 10 _ _ rfl,
   processChildren_eval 10 _ _ rfl,
   extractMany_eval 10 _ _ _ rfl⟩

/-- C5 amended: convertElement itself fails loudly when applied to an
element with no tag name, but every traversal position of the conversion
(top level, element children, mark extraction) checks the tag first and
silently skips tagless textless elements, so the error is never raised
from those loops. -/
theorem claim_C5 :
    (∀ attrs tx, convertElement (.mk none attrs tx) = .error "Element has no tag name") ∧
    (∀ attrs rest, processElements (.mk none attrs none :: rest) = processElements rest) ∧
    (∀ attrs rest, processChildren (.mk none attrs none :: rest) = processChildren rest) ∧
    (∀ attrs rest marks, extractMany (.mk none attrs none :: rest) marks =
      extractMany rest marks) := by
  refine ⟨fun attrs tx => convertElement_none attrs tx, ?_, ?_, ?_⟩
  · intro attrs rest
    rw [processElements_cons_none]
    cases h : processElements rest <;> simp [textPartOf]
  · intro attrs rest
    rw [processChildren_cons_none]
    cases h : processChildren rest <;> simp [textPartOf]
  · intro attrs rest marks
    rw [extractMany_cons, extractOne_none]
    cases h : extractMany rest marks <;> simp [textPartOf]

/-- C10 counterexample: a doc element nested inside a top-level doc element
is unwrapped as well (its children are spliced), instead of being converted
to an ordinary node of type doc as the claim states for every nested doc
element. -/
theorem claim_C10_counterexample :
    processElements [mkElem "doc" [] [mkElem "doc" [] [mkElem "p" [] []]]] =
      .ok [TipTapNode.mk "p" none none none none] ∧
    ([TipTapNode.mk "p" none none none none] : List TipTapNode) ≠
      [TipTapNode.mk "doc" none (some [TipTapNode.mk "p" none none none none]) none none] :=
  ⟨processElements_eval 10 _ _ rfl, by decide⟩

/-- C10 amended: a doc element met by processElements has its children
spliced into the content in order, again through processElements (so doc
chains unwrap recursively and multiple top-level doc elements all unwrap,
their attributes discarded), while a doc element met as a child of a
non-doc element or under a mark wrapper goes through convertElement and
becomes an ordinary node of type doc. -/
theorem claim_C10 :
    (∀ at0 ds rest, processElements (ParsedElement.mk (some ("doc", ds)) at0 none :: rest) =
      (match processElements ds with
       | .error m => .error m
       | .ok tp =>
           match processElements rest with
           | .error m => .error m
           | .ok rp => .ok (tp ++ rp))) ∧
    (∀ at0 ds, convertElement (ParsedElement.mk (some ("doc", ds)) at0 none) =
      (match processChildren ds with
       | .error m => .error m
       | .ok content =>
           .ok (.mk "doc" (processAttrs at0)
             (if content.isEmpty then none else some content) none none))) ∧
    (∀ at0 ds rest, processChildren (ParsedElement.mk (some ("doc", ds)) at0 none :: rest) =
      (match convertElement (ParsedElement.mk (some ("doc", ds)) at0 none) with
       | .error m => .error m
       | .ok n =>
           match processChildren rest with
           | .error m => .error m
           | .ok rp => .ok (n :: rp))) ∧
    (∀ at0 ds rest marks,
      extractMany (ParsedElement.mk (some ("doc", ds)) at0 none :: rest) marks =
      (match convertElement (ParsedElement.mk (some ("doc", ds)) at0 none) with
       | .error m => .error m
       | .ok n =>
           match extractMany rest marks with
           | .error m => .error m
           | .ok rp => .ok (n :: rp))) := by
  refine ⟨?_, ?_, ?_, ?_⟩
  · intro at0 ds rest
    rw [processElements_cons_some]
    cases hd : processElements ds <;> cases hr : processElements rest <;>
      simp [textPartOf]
  · intro at0 ds
    exact convertElement_some "doc" ds at0 none
  · intro at0 ds rest
    rw [processChildren_cons_some]
    have : isMarkType "doc" = false := by decide
    cases hc : convertElement (ParsedElement.mk (some ("doc", ds)) at0 none) <;>
      cases hr : processChildren rest <;>
        simp [this, hc, hr, textPartOf]
  · intro at0 ds rest marks
    rw [extractMany_cons, extractOne_some]
    have : isMarkType "doc" = false := by decide
    cases hc : convertElement (ParsedElement.mk (some ("doc", ds)) at0 none) <;>
      cases hr : extractMany rest marks <;>
        simp [this, hc, hr, textPartOf]



/-- C4: during parsing each attribute value is deserialized: a trimmed
value shaped like a JSON object or array is JSON-parsed, the parsed value
substituted on success and the raw string kept on failure; any other value
stays the raw string; and processAttrs applies this to every attribute. -/
theorem claim_C4 (v : String) :
    (jsonShaped (strTrim v) = true →
      ((∃ j, jsonParse (strTrim v) = some j ∧ deserializeAttrValue v = j) ∨
       (jsonParse (strTrim v) = none ∧ deserializeAttrValue v = .str v))) ∧
    (jsonShaped (strTrim v) = false → deserializeAttrValue v = .str v) ∧
    (∀ attrs : List (String × String), processAttrs attrs =
      if attrs.isEmpty then none
      else some (attrs.map (fun kv => (kv.1, deserializeAttrValue kv.2)))) := by
  refine ⟨?_, ?_, fun attrs => rfl⟩
  · intro hs
    cases hj : jsonParse (strTrim v) with
    | none => right; exact ⟨rfl, by simp [deserializeAttrValue, hs, hj]⟩
    | some j => left; exact ⟨j, rfl, by simp [deserializeAttrValue, hs, hj]⟩
  · intro hs
    simp [deserializeAttrValue, hs]

/-- C4 witness: a JSON-object-shaped value parses and is substituted, and a
plain value is kept verbatim. -/
theorem claim_C4_witness :
    deserializeAttrValue "\x7b\"a\":1\x7d" = .obj [("a", .num 1)] ∧
    deserializeAttrValue "hello" = .str "hello" := by
  constructor
  · have h := (claim_C4 "\x7b\"a\":1\x7d").1 (by rfl)
    have hj : jsonParse (strTrim "\x7b\"a\":1\x7d") = some (.obj [("a", .num 1)]) := by rfl
    rcases h with ⟨j, hj2, hd⟩ | ⟨hn, _⟩
    · rw [hj] at hj2
      rw [hd, ← Option.some.inj hj2]
    · rw [hj] at hn; cases hn
  · exact (claim_C4 "hello").2.1 (by rfl)

/-- C8: when a sync direction fails (source validation fails or the
conversion errors) the destination buffer is untouched: syncJsonToXml
leaves the XML value unchanged and syncXmlToJson leaves the JSON value
unchanged. -/
theorem claim_C8 (activeEditor : Option ActiveEditor) (isSyncing : Bool)
    (st : AppState) (json xml : String) :
    ((validateJson json).isSome = true ∨ (∃ e, jsonTextToDoc json = .error e) →
      (syncJsonToXml activeEditor isSyncing st json).xmlValue = st.xmlValue) ∧
    ((validateXml xml).isSome = true ∨ (∃ e, xmlToJson xml = .error e) →
      (syncXmlToJson activeEditor isSyncing st xml).jsonValue = st.jsonValue) := by
  constructor
  · intro hfail
    unfold syncJsonToXml
    split
    · rfl
    · cases hv : validateJson json with
      | some m => rfl
      | none =>
          rcases hfail with hv2 | ⟨e, he⟩
          · rw [hv] at hv2; cases hv2
          · rw [he]
  · intro hfail
    unfold syncXmlToJson
    split
    · rfl
    · cases hv : validateXml xml with
      | some m => rfl
      | none =>
          rcases hfail with hv2 | ⟨e, he⟩
          · rw [hv] at hv2; cases hv2
          · rw [he]

/-- C8 witness: with invalid JSON and invalid XML inputs the destination
buffers keep their previous values. -/
theorem claim_C8_witness :
    (syncJsonToXml (some ActiveEditor.json) false ⟨"j0", "x0", none⟩ "[1").xmlValue = "x0" ∧
    (syncXmlToJson (some ActiveEditor.xml) false ⟨"j0", "x0", none⟩ "<p").jsonValue = "j0" := by
  constructor
  · exact (claim_C8 (some ActiveEditor.json) false ⟨"j0", "x0", none⟩ "[1" "").1
      (Or.inl (by rfl))
  · exact (claim_C8 (some ActiveEditor.xml) false ⟨"j0", "x0", none⟩ "" "<p").2
      (Or.inl (by rfl))



theorem nodesOmitEmpty_append (a b : List TipTapNode) :
    nodesOmitEmpty (a ++ b) = (nodesOmitEmpty a && nodesOmitEmpty b) := by
  induction a with
  | nil => simp [nodesOmitEmpty]
  | cons x xs ihx => simp [nodesOmitEmpty, ihx, Bool.and_assoc]

theorem markOmitsEmpty_processAttrs (t : String) (a : List (String × String)) :
    markOmitsEmpty ⟨t, processAttrs a⟩ = true := by
  cases a with
  | nil => rfl
  | cons kv rest => simp [processAttrs, markOmitsEmpty]

theorem attrsNE_processAttrs (a : List (String × String)) :
    attrsNE (processAttrs a) = true := by
  cases a with
  | nil => rfl
  | cons kv rest => simp [processAttrs, attrsNE]

theorem nodeOmitsEmpty_textNodeOf (t : String) (ms : List TipTapMark)
    (hm : ms.all markOmitsEmpty = true) : nodeOmitsEmpty (textNodeOf t ms) = true := by
  cases ms with
  | nil => simp [textNodeOf, nodeOmitsEmpty, attrsNE, marksNE, contentNE]
  | cons m rest =>
      simp only [textNodeOf, List.isEmpty_cons]
      simp [nodeOmitsEmpty, attrsNE, marksNE, contentNE, hm]

theorem textPartOf_omits (tx : Option String) (ms : List TipTapMark)
    (hm : ms.all markOmitsEmpty = true) : nodesOmitEmpty (textPartOf tx ms) = true := by
  cases tx with
  | none => rfl
  | some t =>
      simp only [textPartOf]
      split
      · simp [nodesOmitEmpty, nodeOmitsEmpty_textNodeOf t ms hm]
      · rfl

theorem sizeOf_children_lt (ct : String) (ccs : List ParsedElement)
    (at0 : List (String × String)) (tx0 : Option String) :
    sizeOf ccs < sizeOf (ParsedElement.mk (some (ct, ccs)) at0 tx0) := by
  simp only [ParsedElement.mk.sizeOf_spec, Option.some.sizeOf_spec, Prod.mk.sizeOf_spec]
  omega

theorem sizeOf_head_lt (c : ParsedElement) (rest : List ParsedElement) :
    sizeOf c < sizeOf (c :: rest) := by
  simp only [List.cons.sizeOf_spec]
  omega

theorem sizeOf_tail_lt (c : ParsedElement) (rest : List ParsedElement) :
    sizeOf rest < sizeOf (c :: rest) := by
  simp only [List.cons.sizeOf_spec]
  omega

theorem omits_main : ∀ n : Nat,
    (∀ e : ParsedElement, sizeOf e < n →
      (∀ r, convertElement e = .ok r → nodeOmitsEmpty r = true) ∧
      (∀ ms r, ms.all markOmitsEmpty = true → extractOne e ms = .ok r →
        nodesOmitEmpty r = true)) ∧
    (∀ es : List ParsedElement, sizeOf es < n →
      (∀ r, processChildren es = .ok r → nodesOmitEmpty r = true) ∧
      (∀ ms r, ms.all markOmitsEmpty = true → extractMany es ms = .ok r →
        nodesOmitEmpty r = true) ∧
      (∀ r, processElements es = .ok r → nodesOmitEmpty r = true)) := by
  intro n
  induction n with
  | zero =>
      constructor
      · intro e he; exact absurd he (by omega)
      · intro es he; exact absurd he (by omega)
  | succ n ih =>
      obtain ⟨ihE, ihL⟩ := ih
      constructor
      · rintro ⟨tc, at0, tx0⟩ he
        have hconv : ∀ r, convertElement (.mk tc at0 tx0) = .ok r →
            nodeOmitsEmpty r = true := by
          intro r hr
          cases tc with
          | none => rw [convertElement_none] at hr; cases hr
          | some tcv =>
              obtain ⟨ct, ccs⟩ := tcv
              have hccs : sizeOf ccs < n := by
                have := sizeOf_children_lt ct ccs at0 tx0
                omega
              rw [convertElement_some] at hr
              cases hpc : processChildren ccs with
              | error m => rw [hpc] at hr; cases hr
              | ok content =>
                  rw [hpc] at hr
                  simp only [Except.ok.injEq] at hr
                  subst hr
                  have hcontent := (ihL ccs hccs).1 content hpc
                  simp only [nodeOmitsEmpty]
                  rw [attrsNE_processAttrs]
                  cases content with
                  | nil => simp [marksNE, contentNE]
                  | cons c0 crest =>
                      simp only [List.isEmpty_cons, if_neg]
                      simp [marksNE, contentNE, hcontent]
        refine ⟨hconv, ?_⟩
        intro ms r hms hr
        cases tc with
        | none =>
            rw [extractOne_none] at hr
            simp only [Except.ok.injEq] at hr
            subst hr
            exact textPartOf_omits tx0 ms hms
        | some tcv =>
            obtain ⟨ct, ccs⟩ := tcv
            have hccs : sizeOf ccs < n := by
              have := sizeOf_children_lt ct ccs at0 tx0
              omega
            rw [extractOne_some] at hr
            by_cases hm : isMarkType ct = true
            · rw [if_pos hm] at hr
              cases hem : extractMany ccs (ms ++ [(⟨ct, processAttrs at0⟩ : TipTapMark)]) with
              | error m => rw [hem] at hr; cases hr
              | ok tagPart =>
                  rw [hem] at hr
                  simp only [Except.ok.injEq] at hr
                  subst hr
                  have hms2 : (ms ++ [(⟨ct, processAttrs at0⟩ : TipTapMark)]).all
                      markOmitsEmpty = true := by
                    simp [List.all_append, hms, markOmitsEmpty_processAttrs]
                  have htag := (ihL ccs hccs).2.1 _ tagPart hms2 hem
                  rw [nodesOmitEmpty_append, textPartOf_omits tx0 ms hms, htag]
                  rfl
            · rw [if_neg hm] at hr
              cases hcv : convertElement (.mk (some (ct, ccs)) at0 tx0) with
              | error m => rw [hcv] at hr; cases hr
              | ok nnode =>
                  rw [hcv] at hr
                  simp only [Except.ok.injEq] at hr
                  subst hr
                  have hn := hconv nnode hcv
                  rw [nodesOmitEmpty_append, textPartOf_omits tx0 ms hms]
                  simp [nodesOmitEmpty, hn]
      · intro es he
        cases es with
        | nil =>
            refine ⟨?_, ?_, ?_⟩
            · intro r hr; rw [processChildren_nil] at hr
              simp only [Except.ok.injEq] at hr; subst hr; rfl
            · intro ms r hms hr; rw [extractMany_nil] at hr
              simp only [Except.ok.injEq] at hr; subst hr; rfl
            · intro r hr; rw [processElements_nil] at hr
              simp only [Except.ok.injEq] at hr; subst hr; rfl
        | cons c rest =>
            have hc : sizeOf c < n := by
              have := sizeOf_head_lt c rest; omega
            have hrest : sizeOf rest < n := by
              have := sizeOf_tail_lt c rest; omega
            obtain ⟨tc, at0, tx0⟩ := c
            refine ⟨?_, ?_, ?_⟩
            · -- processChildren
              intro r hr
              cases tc with
              | none =>
                  rw [processChildren_cons_none] at hr
                  cases hpr : processChildren rest with
                  | error m => rw [hpr] at hr; cases hr
                  | ok restPart =>
                      rw [hpr] at hr
                      simp only [Except.ok.injEq] at hr; subst hr
                      rw [nodesOmitEmpty_append, textPartOf_omits tx0 [] rfl,
                        (ihL rest hrest).1 restPart hpr]
                      rfl
              | some tcv =>
                  obtain ⟨ct, ccs⟩ := tcv
                  rw [processChildren_cons_some] at hr
                  by_cases hm : isMarkType ct = true
                  · rw [if_pos hm] at hr
                    cases ho : extractOne (.mk (some (ct, ccs)) at0 tx0) [] with
                    | error m => rw [ho] at hr; cases hr
                    | ok part =>
                        rw [ho] at hr
                        cases hpr : processChildren rest with
                        | error m => rw [hpr] at hr; cases hr
                        | ok restPart =>
                            rw [hpr] at hr
                            simp only [Except.ok.injEq] at hr; subst hr
                            rw [nodesOmitEmpty_append, nodesOmitEmpty_append,
                              textPartOf_omits tx0 [] rfl,
                              (ihE _ hc).2 [] part rfl ho,
                              (ihL rest hrest).1 restPart hpr]
                            rfl
                  · rw [if_neg hm] at hr
                    cases hcv : convertElement (.mk (some (ct, ccs)) at0 tx0) with
                    | error m => rw [hcv] at hr; cases hr
                    | ok nnode =>
                        rw [hcv] at hr
                        cases hpr : processChildren rest with
                        | error m => rw [hpr] at hr; cases hr
                        | ok restPart =>
                            rw [hpr] at hr
                            simp only [Except.ok.injEq] at hr; subst hr
                            have hn := (ihE _ hc).1 nnode hcv
                            rw [nodesOmitEmpty_append, nodesOmitEmpty_append,
                              textPartOf_omits tx0 [] rfl,
                              (ihL rest hrest).1 restPart hpr]
                            simp [nodesOmitEmpty, hn]
            · -- extractMany
              intro ms r hms hr
              rw [extractMany_cons] at hr
              cases ho : extractOne (.mk tc at0 tx0) ms with
              | error m => rw [ho] at hr; cases hr
              | ok part =>
                  rw [ho] at hr
                  cases hem : extractMany rest ms with
                  | error m => rw [hem] at hr; cases hr
                  | ok parts =>
                      rw [hem] at hr
                      simp only [Except.ok.injEq] at hr; subst hr
                      rw [nodesOmitEmpty_append,
                        (ihE _ hc).2 ms part hms ho,
                        (ihL rest hrest).2.1 ms parts hms hem]
                      rfl
            · -- processElements
              intro r hr
              cases tc with
              | none =>
                  rw [processElements_cons_none] at hr
                  cases hpr : processElements rest with
                  | error m => rw [hpr] at hr; cases hr
                  | ok restPart =>
                      rw [hpr] at hr
                      simp only [Except.ok.injEq] at hr; subst hr
                      rw [nodesOmitEmpty_append, textPartOf_omits tx0 [] rfl,
                        (ihL rest hrest).2.2 restPart hpr]
                      rfl
              | some tcv =>
                  obtain ⟨ct, ccs⟩ := tcv
                  have hccs : sizeOf ccs < n := by
                    have h1 := sizeOf_children_lt ct ccs at0 tx0
                    have h2 := sizeOf_head_lt (.mk (some (ct, ccs)) at0 tx0) rest
                    omega
                  rw [processElements_cons_some] at hr
                  by_cases hd : ct = "doc"
                  · rw [if_pos hd] at hr
                    cases hdc : processElements ccs with
                    | error m => rw [hdc] at hr; cases hr
                    | ok tagPart =>
                        rw [hdc] at hr
                        cases hpr : processElements rest with
                        | error m => rw [hpr] at hr; cases hr
                        | ok restPart =>
                            rw [hpr] at hr
                            simp only [Except.ok.injEq] at hr; subst hr
                            rw [nodesOmitEmpty_append, nodesOmitEmpty_append,
                              textPartOf_omits tx0 [] rfl,
                              (ihL ccs hccs).2.2 tagPart hdc,
                              (ihL rest hrest).2.2 restPart hpr]
                            rfl
                  · rw [if_neg hd] at hr
                    by_cases hm : isMarkType ct = true
                    · rw [if_pos hm] at hr
                      cases ho : extractOne (.mk (some (ct, ccs)) at0 tx0) [] with
                      | error m => rw [ho] at hr; cases hr
                      | ok part =>
                          rw [ho] at hr
                          cases hpr : processElements rest with
                          | error m => rw [hpr] at hr; cases hr
                          | ok restPart =>
                              rw [hpr] at hr
                              simp only [Except.ok.injEq] at hr; subst hr
                              rw [nodesOmitEmpty_append, nodesOmitEmpty_append,
                                textPartOf_omits tx0 [] rfl,
                                (ihE _ hc).2 [] part rfl ho,
                                (ihL rest hrest).2.2 restPart hpr]
                              rfl
                    · rw [if_neg hm] at hr
                      cases hcv : convertElement (.mk (some (ct, ccs)) at0 tx0) with
                      | error m => rw [hcv] at hr; cases hr
                      | ok nnode =>
                          rw [hcv] at hr
                          cases hpr : processElements rest with
                          | error m => rw [hpr] at hr; cases hr
                          | ok restPart =>
                              rw [hpr] at hr
                              simp only [Except.ok.injEq] at hr; subst hr
                              have hn := (ihE _ hc).1 nnode hcv
                              rw [nodesOmitEmpty_append, nodesOmitEmpty_append,
                                textPartOf_omits tx0 [] rfl,
                                (ihL rest hrest).2.2 restPart hpr]
                              simp [nodesOmitEmpty, hn]



/-- C9: every document produced by xmlToJson omits empty collections in all
nodes (attrs, marks, content and mark attrs present only when non-empty),
except that an input whose generic parse yields no elements at all produces
the document with an explicit empty content array. -/
theorem claim_C9 (xml : String) (d : TipTapDoc) (h : xmlToJson xml = .ok d) :
    (xmlParse xml = some [] ∧ d = ⟨some []⟩) ∨
    ((∃ p ps, xmlParse xml = some (p :: ps)) ∧ d.content ≠ some [] ∧
      docOmitsEmpty d = true) := by
  cases hp : xmlParse xml with
  | none => simp [xmlToJson, hp] at h
  | some es =>
      cases es with
      | nil =>
          left
          simp only [xmlToJson, hp, Except.ok.injEq] at h
          exact ⟨rfl, h.symm⟩
      | cons p ps =>
          right
          refine ⟨⟨p, ps, rfl⟩, ?_⟩
          simp only [xmlToJson, hp] at h
          cases hpe : processElements (p :: ps) with
          | error m => rw [hpe] at h; cases h
          | ok content =>
              rw [hpe] at h
              simp only [Except.ok.injEq] at h
              subst h
              have hcontent :=
                ((omits_main (sizeOf (p :: ps) + 1)).2 (p :: ps) (by omega)).2.2 content hpe
              cases content with
              | nil => simp [docOmitsEmpty]
              | cons c0 cs =>
                  simp only [List.isEmpty_cons, if_neg]
                  constructor
                  · simp
                  · simp [docOmitsEmpty, hcontent]

/-- C9 witness: a one-element input produces a document that omits empty
collections. -/
theorem claim_C9_witness :
    xmlToJson "<p />" = .ok ⟨some [TipTapNode.mk "p" none none none none]⟩ ∧
    ((xmlParse "<p />" = some [] ∧
      (⟨some [TipTapNode.mk "p" none none none none]⟩ : TipTapDoc) = ⟨some []⟩) ∨
     ((∃ p ps, xmlParse "<p />" = some (p :: ps)) ∧
      (⟨some [TipTapNode.mk "p" none none none none]⟩ : TipTapDoc).content ≠ some [] ∧
      docOmitsEmpty ⟨some [TipTapNode.mk "p" none none none none]⟩ = true)) := by
  have hx : xmlToJson "<p />" = .ok ⟨some [TipTapNode.mk "p" none none none none]⟩ :=
    xmlToJson_eval 10 _ _ rfl
  exact ⟨hx, claim_C9 "<p />" _ hx⟩



/-!
## Parser composition lemmas

Extension and splitting facts about the modelled parser, used for the
wrapper-equivalence, whitespace-insertion and round-trip claims.
-/

/-- Splitting an entity boundary: a list whose extension starts with the amp
entity tail either contains the whole tail or is a short prefix of it. -/
theorem tail_amp (rest X r1 : List Char) (h : rest ++ X = 'a' :: 'm' :: 'p' :: ';' :: r1) :
    (∃ r', rest = 'a' :: 'm' :: 'p' :: ';' :: r') ∨
    rest = [] ∨ rest = ['a'] ∨ rest = ['a', 'm'] ∨ rest = ['a', 'm', 'p'] := by
  rcases rest with _ | ⟨c1, _ | ⟨c2, _ | ⟨c3, _ | ⟨c4, r⟩⟩⟩⟩ <;> simp_all

theorem tail_lt (rest X r1 : List Char) (h : rest ++ X = 'l' :: 't' :: ';' :: r1) :
    (∃ r', rest = 'l' :: 't' :: ';' :: r') ∨
    rest = [] ∨ rest = ['l'] ∨ rest = ['l', 't'] := by
  rcases rest with _ | ⟨c1, _ | ⟨c2, _ | ⟨c3, r⟩⟩⟩ <;> simp_all

theorem tail_gt (rest X r1 : List Char) (h : rest ++ X = 'g' :: 't' :: ';' :: r1) :
    (∃ r', rest = 'g' :: 't' :: ';' :: r') ∨
    rest = [] ∨ rest = ['g'] ∨ rest = ['g', 't'] := by
  rcases rest with _ | ⟨c1, _ | ⟨c2, _ | ⟨c3, r⟩⟩⟩ <;> simp_all

theorem tail_quot (rest X r1 : List Char)
    (h : rest ++ X = 'q' :: 'u' :: 'o' :: 't' :: ';' :: r1) :
    (∃ r', rest = 'q' :: 'u' :: 'o' :: 't' :: ';' :: r') ∨
    rest = [] ∨ rest = ['q'] ∨ rest = ['q', 'u'] ∨ rest = ['q', 'u', 'o'] ∨
    rest = ['q', 'u', 'o', 't'] := by
  rcases rest with _ | ⟨c1, _ | ⟨c2, _ | ⟨c3, _ | ⟨c4, _ | ⟨c5, r⟩⟩⟩⟩⟩ <;> simp_all

theorem tail_apos (rest X r1 : List Char)
    (h : rest ++ X = 'a' :: 'p' :: 'o' :: 's' :: ';' :: r1) :
    (∃ r', rest = 'a' :: 'p' :: 'o' :: 's' :: ';' :: r') ∨
    rest = [] ∨ rest = ['a'] ∨ rest = ['a', 'p'] ∨ rest = ['a', 'p', 'o'] ∨
    rest = ['a', 'p', 'o', 's'] := by
  rcases rest with _ | ⟨c1, _ | ⟨c2, _ | ⟨c3, _ | ⟨c4, _ | ⟨c5, r⟩⟩⟩⟩⟩ <;> simp_all

set_option maxHeartbeats 2000000 in
/-- Text lexing stopped inside the input is unaffected by appending more
input. -/
theorem lexText_stop_append :
    ∀ cs : List Char, (lexText cs).2 ≠ [] →
      ∀ X, lexText (cs ++ X) = ((lexText cs).1, (lexText cs).2 ++ X) := by
  intro cs
  induction cs using lexText.induct <;> intro hne X
  case case1 => simp [lexText] at hne
  case case2 rest => simp [lexText]
  case case3 rest ih =>
    simp [lexText] at hne
    simp [lexText, ih hne]
  case case4 rest ih =>
    simp [lexText] at hne
    simp [lexText, ih hne]
  case case5 rest ih =>
    simp [lexText] at hne
    simp [lexText, ih hne]
  case case6 rest ih =>
    simp [lexText] at hne
    simp [lexText, ih hne]
  case case7 rest ih =>
    simp [lexText] at hne
    simp [lexText, ih hne]
  case case8 c rest h1 h2 h3 h4 h5 h6 ih =>
    by_cases hc : c = '&'
    · subst hc
      have m1 : ∀ r, rest = 'a' :: 'm' :: 'p' :: ';' :: r → False := fun r hr => h2 r rfl hr
      have m2 : ∀ r, rest = 'l' :: 't' :: ';' :: r → False := fun r hr => h3 r rfl hr
      have m3 : ∀ r, rest = 'g' :: 't' :: ';' :: r → False := fun r hr => h4 r rfl hr
      have m4 : ∀ r, rest = 'q' :: 'u' :: 'o' :: 't' :: ';' :: r → False := fun r hr => h5 r rfl hr
      have m5 : ∀ r, rest = 'a' :: 'p' :: 'o' :: 's' :: ';' :: r → False := fun r hr => h6 r rfl hr
      have n1 : ∀ r, rest ++ X = 'a' :: 'm' :: 'p' :: ';' :: r → False := by
        intro r hr
        rcases tail_amp rest X r hr with ⟨r', hr'⟩ | h0 | hA | hB | hC
        · exact m1 r' hr'
        · subst h0; exact hne rfl
        · subst hA; exact hne rfl
        · subst hB; exact hne rfl
        · subst hC; exact hne rfl
      have n2 : ∀ r, rest ++ X = 'l' :: 't' :: ';' :: r → False := by
        intro r hr
        rcases tail_lt rest X r hr with ⟨r', hr'⟩ | h0 | hA | hB
        · exact m2 r' hr'
        · subst h0; exact hne rfl
        · subst hA; exact hne rfl
        · subst hB; exact hne rfl
      have n3 : ∀ r, rest ++ X = 'g' :: 't' :: ';' :: r → False := by
        intro r hr
        rcases tail_gt rest X r hr with ⟨r', hr'⟩ | h0 | hA | hB
        · exact m3 r' hr'
        · subst h0; exact hne rfl
        · subst hA; exact hne rfl
        · subst hB; exact hne rfl
      have n4 : ∀ r, rest ++ X = 'q' :: 'u' :: 'o' :: 't' :: ';' :: r → False := by
        intro r hr
        rcases tail_quot rest X r hr with ⟨r', hr'⟩ | h0 | hA | hB | hC | hD
        · exact m4 r' hr'
        · subst h0; exact hne rfl
        · subst hA; exact hne rfl
        · subst hB; exact hne rfl
        · subst hC; exact hne rfl
        · subst hD; exact hne rfl
      have n5 : ∀ r, rest ++ X = 'a' :: 'p' :: 'o' :: 's' :: ';' :: r → False := by
        intro r hr
        rcases tail_apos rest X r hr with ⟨r', hr'⟩ | h0 | hA | hB | hC | hD
        · exact m5 r' hr'
        · subst h0; exact hne rfl
        · subst hA; exact hne rfl
        · subst hB; exact hne rfl
        · subst hC; exact hne rfl
        · subst hD; exact hne rfl
      simp [lexText, m1, m2, m3, m4, m5] at hne
      rw [List.cons_append, lexText.eq_8 '&' (rest ++ X) (by decide)
        (fun r _ hr => n1 r hr) (fun r _ hr => n2 r hr) (fun r _ hr => n3 r hr)
        (fun r _ hr => n4 r hr) (fun r _ hr => n5 r hr),
        lexText.eq_8 '&' rest (by decide)
        (fun r _ hr => m1 r hr) (fun r _ hr => m2 r hr) (fun r _ hr => m3 r hr)
        (fun r _ hr => m4 r hr) (fun r _ hr => m5 r hr), ih hne X]
    · have h1' : ¬ c = '<' := fun hh => h1 hh
      simp [lexText, hc, h1'] at hne
      simp [lexText, hc, h1', ih hne]

set_option maxHeartbeats 2000000 in
/-- Text lexing that consumed the whole input continues to stop at an
appended angle bracket, keeping the same decoded run. -/
theorem lexText_empty_append_lt :
    ∀ cs : List Char, (lexText cs).2 = [] →
      ∀ t, lexText (cs ++ '<' :: t) = ((lexText cs).1, '<' :: t) := by
  intro cs
  induction cs using lexText.induct <;> intro hemp t
  case case1 => simp [lexText]
  case case2 rest => simp [lexText] at hemp
  case case3 rest ih =>
    simp [lexText] at hemp
    simp [lexText, ih hemp]
  case case4 rest ih =>
    simp [lexText] at hemp
    simp [lexText, ih hemp]
  case case5 rest ih =>
    simp [lexText] at hemp
    simp [lexText, ih hemp]
  case case6 rest ih =>
    simp [lexText] at hemp
    simp [lexText, ih hemp]
  case case7 rest ih =>
    simp [lexText] at hemp
    simp [lexText, ih hemp]
  case case8 c rest h1 h2 h3 h4 h5 h6 ih =>
    by_cases hc : c = '&'
    · subst hc
      have m1 : ∀ r, rest = 'a' :: 'm' :: 'p' :: ';' :: r → False := fun r hr => h2 r rfl hr
      have m2 : ∀ r, rest = 'l' :: 't' :: ';' :: r → False := fun r hr => h3 r rfl hr
      have m3 : ∀ r, rest = 'g' :: 't' :: ';' :: r → False := fun r hr => h4 r rfl hr
      have m4 : ∀ r, rest = 'q' :: 'u' :: 'o' :: 't' :: ';' :: r → False := fun r hr => h5 r rfl hr
      have m5 : ∀ r, rest = 'a' :: 'p' :: 'o' :: 's' :: ';' :: r → False := fun r hr => h6 r rfl hr
      have n1 : ∀ r, rest ++ '<' :: t = 'a' :: 'm' :: 'p' :: ';' :: r → False := by
        intro r hr
        rcases tail_amp rest ('<' :: t) r hr with ⟨r', hr'⟩ | h0 | hA | hB | hC
        · exact m1 r' hr'
        · subst h0; simp at hr
        · subst hA; simp at hr
        · subst hB; simp at hr
        · subst hC; simp at hr
      have n2 : ∀ r, rest ++ '<' :: t = 'l' :: 't' :: ';' :: r → False := by
        intro r hr
        rcases tail_lt rest ('<' :: t) r hr with ⟨r', hr'⟩ | h0 | hA | hB
        · exact m2 r' hr'
        · subst h0; simp at hr
        · subst hA; simp at hr
        · subst hB; simp at hr
      have n3 : ∀ r, rest ++ '<' :: t = 'g' :: 't' :: ';' :: r → False := by
        intro r hr
        rcases tail_gt rest ('<' :: t) r hr with ⟨r', hr'⟩ | h0 | hA | hB
        · exact m3 r' hr'
        · subst h0; simp at hr
        · subst hA; simp at hr
        · subst hB; simp at hr
      have n4 : ∀ r, rest ++ '<' :: t = 'q' :: 'u' :: 'o' :: 't' :: ';' :: r → False := by
        intro r hr
        rcases tail_quot rest ('<' :: t) r hr with ⟨r', hr'⟩ | h0 | hA | hB | hC | hD
        · exact m4 r' hr'
        · subst h0; simp at hr
        · subst hA; simp at hr
        · subst hB; simp at hr
        · subst hC; simp at hr
        · subst hD; simp at hr
      have n5 : ∀ r, rest ++ '<' :: t = 'a' :: 'p' :: 'o' :: 's' :: ';' :: r → False := by
        intro r hr
        rcases tail_apos rest ('<' :: t) r hr with ⟨r', hr'⟩ | h0 | hA | hB | hC | hD
        · exact m5 r' hr'
        · subst h0; simp at hr
        · subst hA; simp at hr
        · subst hB; simp at hr
        · subst hC; simp at hr
        · subst hD; simp at hr
      rw [lexText.eq_8 '&' rest (by decide)
        (fun r _ hr => m1 r hr) (fun r _ hr => m2 r hr) (fun r _ hr => m3 r hr)
        (fun r _ hr => m4 r hr) (fun r _ hr => m5 r hr)] at hemp
      rw [List.cons_append, lexText.eq_8 '&' (rest ++ '<' :: t) (by decide)
        (fun r _ hr => n1 r hr) (fun r _ hr => n2 r hr) (fun r _ hr => n3 r hr)
        (fun r _ hr => n4 r hr) (fun r _ hr => n5 r hr),
        lexText.eq_8 '&' rest (by decide)
        (fun r _ hr => m1 r hr) (fun r _ hr => m2 r hr) (fun r _ hr => m3 r hr)
        (fun r _ hr => m4 r hr) (fun r _ hr => m5 r hr), ih hemp t]
    · have h1' : ¬ c = '<' := fun hh => h1 hh
      simp [lexText, hc, h1'] at hemp
      simp [lexText, hc, h1', ih hemp]


set_option maxHeartbeats 2000000 in
/-- Attribute-value lexing that found its closing quote is unaffected by
appending more input. -/
theorem lexAttrVal_append (q : Char) (hq : q = '\'' ∨ q = '"') :
    ∀ cs : List Char, ∀ v r, lexAttrVal q cs = some (v, r) →
      ∀ T, lexAttrVal q (cs ++ T) = some (v, r ++ T) := by
  have hqamp : ¬ q = '&' := by rcases hq with rfl | rfl <;> decide
  intro cs
  induction cs using lexAttrVal.induct q <;> intro v r hs T
  case case1 => simp [lexAttrVal] at hs
  case case2 rest ih =>
    simp only [lexAttrVal, Option.map_eq_some'] at hs
    obtain ⟨⟨v', r'⟩, hv, heq⟩ := hs
    rw [Prod.mk.injEq] at heq
    obtain ⟨rfl, rfl⟩ := heq
    simp only [List.cons_append, lexAttrVal, List.append_eq, ih _ _ hv T, Option.map_some']
  case case3 rest ih =>
    simp only [lexAttrVal, Option.map_eq_some'] at hs
    obtain ⟨⟨v', r'⟩, hv, heq⟩ := hs
    rw [Prod.mk.injEq] at heq
    obtain ⟨rfl, rfl⟩ := heq
    simp only [List.cons_append, lexAttrVal, List.append_eq, ih _ _ hv T, Option.map_some']
  case case4 rest ih =>
    simp only [lexAttrVal, Option.map_eq_some'] at hs
    obtain ⟨⟨v', r'⟩, hv, heq⟩ := hs
    rw [Prod.mk.injEq] at heq
    obtain ⟨rfl, rfl⟩ := heq
    simp only [List.cons_append, lexAttrVal, List.append_eq, ih _ _ hv T, Option.map_some']
  case case5 rest ih =>
    simp only [lexAttrVal, Option.map_eq_some'] at hs
    obtain ⟨⟨v', r'⟩, hv, heq⟩ := hs
    rw [Prod.mk.injEq] at heq
    obtain ⟨rfl, rfl⟩ := heq
    simp only [List.cons_append, lexAttrVal, List.append_eq, ih _ _ hv T, Option.map_some']
  case case6 rest ih =>
    simp only [lexAttrVal, Option.map_eq_some'] at hs
    obtain ⟨⟨v', r'⟩, hv, heq⟩ := hs
    rw [Prod.mk.injEq] at heq
    obtain ⟨rfl, rfl⟩ := heq
    simp only [List.cons_append, lexAttrVal, List.append_eq, ih _ _ hv T, Option.map_some']
  case case7 rest h2 h3 h4 h5 h6 =>
    rw [lexAttrVal.eq_7 q q rest h2 h3 h4 h5 h6, if_pos rfl] at hs
    injection hs with h9
    injection h9 with h10 h11
    subst h10
    subst h11
    rw [List.cons_append,
      lexAttrVal.eq_7 q q (rest ++ T)
        (fun r1 he _ => absurd he hqamp) (fun r1 he _ => absurd he hqamp)
        (fun r1 he _ => absurd he hqamp) (fun r1 he _ => absurd he hqamp)
        (fun r1 he _ => absurd he hqamp),
      if_pos rfl]
  case case8 c rest h2 h3 h4 h5 h6 hne ih =>
    rw [lexAttrVal.eq_7 q c rest h2 h3 h4 h5 h6, if_neg hne] at hs
    rw [Option.map_eq_some'] at hs
    obtain ⟨⟨v', r'⟩, hv, heq⟩ := hs
    rw [Prod.mk.injEq] at heq
    obtain ⟨rfl, rfl⟩ := heq
    have m1 : ∀ r1, c = '&' → rest = 'a' :: 'm' :: 'p' :: ';' :: r1 → False := h2
    by_cases hc : c = '&'
    · subst hc
      have n1 : ∀ r1, rest ++ T = 'a' :: 'm' :: 'p' :: ';' :: r1 → False := by
        intro r1 hr
        rcases tail_amp rest T r1 hr with ⟨r2, hr2⟩ | h0 | hA | hB | hC
        · exact h2 r2 rfl hr2
        all_goals subst_vars
        all_goals rcases hq with rfl | rfl <;> simp [lexAttrVal] at hv
      have n2 : ∀ r1, rest ++ T = 'l' :: 't' :: ';' :: r1 → False := by
        intro r1 hr
        rcases tail_lt rest T r1 hr with ⟨r2, hr2⟩ | h0 | hA | hB
        · exact h3 r2 rfl hr2
        all_goals subst_vars
        all_goals rcases hq with rfl | rfl <;> simp [lexAttrVal] at hv
      have n3 : ∀ r1, rest ++ T = 'g' :: 't' :: ';' :: r1 → False := by
        intro r1 hr
        rcases tail_gt rest T r1 hr with ⟨r2, hr2⟩ | h0 | hA | hB
        · exact h4 r2 rfl hr2
        all_goals subst_vars
        all_goals rcases hq with rfl | rfl <;> simp [lexAttrVal] at hv
      have n4 : ∀ r1, rest ++ T = 'q' :: 'u' :: 'o' :: 't' :: ';' :: r1 → False := by
        intro r1 hr
        rcases tail_quot rest T r1 hr with ⟨r2, hr2⟩ | h0 | hA | hB | hC | hD
        · exact h5 r2 rfl hr2
        all_goals subst_vars
        all_goals rcases hq with rfl | rfl <;> simp [lexAttrVal] at hv
      have n5 : ∀ r1, rest ++ T = 'a' :: 'p' :: 'o' :: 's' :: ';' :: r1 → False := by
        intro r1 hr
        rcases tail_apos rest T r1 hr with ⟨r2, hr2⟩ | h0 | hA | hB | hC | hD
        · exact h6 r2 rfl hr2
        all_goals subst_vars
        all_goals rcases hq with rfl | rfl <;> simp [lexAttrVal] at hv
      rw [List.cons_append,
        lexAttrVal.eq_7 q '&' (rest ++ T)
          (fun r1 _ hr => n1 r1 hr) (fun r1 _ hr => n2 r1 hr) (fun r1 _ hr => n3 r1 hr)
          (fun r1 _ hr => n4 r1 hr) (fun r1 _ hr => n5 r1 hr),
        if_neg hne, ih _ _ hv T, Option.map_some']
    · rw [List.cons_append,
        lexAttrVal.eq_7 q c (rest ++ T)
          (fun r1 he _ => absurd he hc) (fun r1 he _ => absurd he hc)
          (fun r1 he _ => absurd he hc) (fun r1 he _ => absurd he hc)
          (fun r1 he _ => absurd he hc),
        if_neg hne, ih _ _ hv T, Option.map_some']

end Tiptap
